import Mathlib

/-!
Verification development for the cf-aig-logs-poller worker.

The worker incrementally syncs an append-only log stream from the
Cloudflare AI Gateway logs API into BigQuery.  We give a shallow
embedding of the core modules (`src/ai-gateway.ts` fetch + sort,
`src/dedup.ts`, `src/bigquery.ts`, and the forward/backfill controllers
in `src/index.ts`) and prove the spec's testable properties about them.

Timestamps and record ids are opaque strings compared with
`localeCompare`, modelled here by the lexicographic linear order on
`String` from Mathlib.  The remote logs API and the two KV namespaces
are external collaborators; their filter/order/pagination semantics are
modelled from the spec (see `tsMatches`, `idMatches`, `fetchLogs`), and
the durable KV state is an explicit record threaded through each cycle.
-/

namespace AigPoller

/-- A log record.  Only `id` and `created_at` participate in the control
flow (ordering, cursor, dedup); the descriptive payload fields are an
opaque payload and are omitted. -/
structure Log where
  id : String
  created_at : String
deriving DecidableEq, Repr

/-- The `CursorState` of `src/types.ts`: the forward cursor `{ts, id}`. -/
structure CursorState where
  ts : String
  id : String
deriving DecidableEq, Repr

/-! ### String comparison

`localeCompare` on the ISO-8601 timestamps and opaque ids is modelled as
lexicographic comparison of the code points.  We use explicit
structurally-recursive boolean comparators so that every definition of
the model is executable. -/

/-- Lexicographic strict comparison of char lists. -/
def charsLt : List Char → List Char → Bool
  | [], [] => false
  | [], _ :: _ => true
  | _ :: _, [] => false
  | a :: as, b :: bs =>
    if a.toNat < b.toNat then true
    else if b.toNat < a.toNat then false
    else charsLt as bs

/-- Lexicographic non-strict comparison of char lists. -/
def charsLe : List Char → List Char → Bool
  | [], _ => true
  | _ :: _, [] => false
  | a :: as, b :: bs =>
    if a.toNat < b.toNat then true
    else if b.toNat < a.toNat then false
    else charsLe as bs

/-- Whether `a` is strictly smaller than `b` (the `localeCompare` result is
negative). -/
def strLt (a b : String) : Bool := charsLt a.data b.data

/-- Whether `a` is smaller than or equal to `b` (the `localeCompare` result is
non-positive; also JS `a <= b` on strings). -/
def strLe (a b : String) : Bool := charsLe a.data b.data

theorem char_eq_of_toNat_eq {a b : Char} (h : a.toNat = b.toNat) : a = b :=
  Char.eq_of_val_eq (UInt32.toNat.inj h)

theorem charsLe_iff : ∀ as bs : List Char,
    charsLe as bs = true ↔ (charsLt as bs = true ∨ as = bs)
  | [], [] => by simp [charsLe, charsLt]
  | [], _ :: _ => by simp [charsLe, charsLt]
  | _ :: _, [] => by simp [charsLe, charsLt]
  | a :: as, b :: bs => by
    unfold charsLe charsLt
    by_cases h1 : a.toNat < b.toNat
    · simp [h1]
    · by_cases h2 : b.toNat < a.toNat
      · have hne : ¬ (a :: as = b :: bs) := by
          intro hh
          cases hh
          omega
        simp [h1, h2, hne]
      · have hab : a = b := char_eq_of_toNat_eq (by omega)
        subst hab
        have : (a :: as = a :: bs) ↔ as = bs := by simp
        simp [h1, h2, this, charsLe_iff as bs]

theorem charsLt_irrefl : ∀ as : List Char, charsLt as as = false
  | [] => by simp [charsLt]
  | a :: as => by
    unfold charsLt
    simp [charsLt_irrefl as]

theorem charsLt_trans : ∀ as bs cs : List Char,
    charsLt as bs = true → charsLt bs cs = true → charsLt as cs = true
  | [], [], _, h, _ => by simp [charsLt] at h
  | [], _ :: _, [], _, h => by simp [charsLt] at h
  | [], _ :: _, _ :: _, _, _ => by simp [charsLt]
  | _ :: _, [], _, h, _ => by simp [charsLt] at h
  | _ :: _, _ :: _, [], _, h => by simp [charsLt] at h
  | a :: as, b :: bs, c :: cs, h1, h2 => by
    unfold charsLt at h1 h2 ⊢
    by_cases hab : a.toNat < b.toNat <;> by_cases hbc : b.toNat < c.toNat
    · simp [if_pos (by omega : a.toNat < c.toNat)]
    · simp [hab] at h1
      simp [hbc] at h2
      rcases h2 with ⟨hcb, h2⟩
      have hbc' : b.toNat = c.toNat := by omega
      simp [if_pos (by omega : a.toNat < c.toNat)]
    · simp [hab] at h1
      rcases h1 with ⟨hba, h1⟩
      simp [hbc] at h2
      simp [if_pos (by omega : a.toNat < c.toNat)]
    · simp [hab] at h1
      rcases h1 with ⟨hba, h1⟩
      simp [hbc] at h2
      rcases h2 with ⟨hcb, h2⟩
      have hac : ¬ a.toNat < c.toNat := by omega
      have hca : ¬ c.toNat < a.toNat := by omega
      simp [hac, hca]
      exact charsLt_trans as bs cs h1 h2

theorem charsLt_trichotomy : ∀ as bs : List Char,
    charsLt as bs = true ∨ as = bs ∨ charsLt bs as = true
  | [], [] => Or.inr (Or.inl rfl)
  | [], _ :: _ => Or.inl (by simp [charsLt])
  | _ :: _, [] => Or.inr (Or.inr (by simp [charsLt]))
  | a :: as, b :: bs => by
    by_cases h1 : a.toNat < b.toNat
    · exact Or.inl (by unfold charsLt; simp [h1])
    · by_cases h2 : b.toNat < a.toNat
      · exact Or.inr (Or.inr (by unfold charsLt; simp [h2]))
      · have hab : a = b := char_eq_of_toNat_eq (by omega)
        subst hab
        rcases charsLt_trichotomy as bs with h | h | h
        · exact Or.inl (by unfold charsLt; simp [h])
        · exact Or.inr (Or.inl (by rw [h]))
        · exact Or.inr (Or.inr (by unfold charsLt; simp [h]))

theorem str_eq_of_data_eq {a b : String} (h : a.data = b.data) : a = b := by
  cases a; cases b
  exact congrArg String.mk h

theorem strLe_iff (a b : String) : strLe a b = true ↔ (strLt a b = true ∨ a = b) := by
  unfold strLe strLt
  rw [charsLe_iff]
  constructor
  · rintro (h | h)
    · exact Or.inl h
    · exact Or.inr (str_eq_of_data_eq h)
  · rintro (h | rfl)
    · exact Or.inl h
    · exact Or.inr rfl

theorem strLt_irrefl (a : String) : strLt a a = false :=
  charsLt_irrefl a.data

theorem strLt_trans {a b c : String} (h1 : strLt a b = true) (h2 : strLt b c = true) :
    strLt a c = true :=
  charsLt_trans a.data b.data c.data h1 h2

theorem strLt_trichotomy (a b : String) :
    strLt a b = true ∨ a = b ∨ strLt b a = true := by
  rcases charsLt_trichotomy a.data b.data with h | h | h
  · exact Or.inl h
  · exact Or.inr (Or.inl (str_eq_of_data_eq h))
  · exact Or.inr (Or.inr h)

theorem strLt_asymm {a b : String} (h : strLt a b = true) : strLt b a = false := by
  cases hba : strLt b a with
  | false => rfl
  | true => exact absurd (strLt_trans h hba) (by rw [strLt_irrefl]; exact Bool.false_ne_true)

theorem strLt_ne {a b : String} (h : strLt a b = true) : a ≠ b := by
  rintro rfl
  rw [strLt_irrefl] at h
  cases h

theorem strLe_refl (a : String) : strLe a a = true :=
  (strLe_iff a a).mpr (Or.inr rfl)

theorem strLe_of_lt {a b : String} (h : strLt a b = true) : strLe a b = true :=
  (strLe_iff a b).mpr (Or.inl h)

theorem strLe_total (a b : String) : strLe a b = true ∨ strLe b a = true := by
  rcases strLt_trichotomy a b with h | rfl | h
  · exact Or.inl (strLe_of_lt h)
  · exact Or.inl (strLe_refl a)
  · exact Or.inr (strLe_of_lt h)

theorem strLe_trans {a b c : String} (h1 : strLe a b = true) (h2 : strLe b c = true) :
    strLe a c = true := by
  rcases (strLe_iff a b).mp h1 with h1 | rfl
  · rcases (strLe_iff b c).mp h2 with h2 | rfl
    · exact strLe_of_lt (strLt_trans h1 h2)
    · exact strLe_of_lt h1
  · exact h2

theorem strLt_of_le_of_ne {a b : String} (h : strLe a b = true) (hne : a ≠ b) :
    strLt a b = true := by
  rcases (strLe_iff a b).mp h with h | rfl
  · exact h
  · exact absurd rfl hne

theorem strLt_of_le_of_lt {a b c : String} (h1 : strLe a b = true)
    (h2 : strLt b c = true) : strLt a c = true := by
  rcases (strLe_iff a b).mp h1 with h1 | rfl
  · exact strLt_trans h1 h2
  · exact h2

theorem strLt_of_lt_of_le {a b c : String} (h1 : strLt a b = true)
    (h2 : strLe b c = true) : strLt a c = true := by
  rcases (strLe_iff b c).mp h2 with h2 | rfl
  · exact strLt_trans h1 h2
  · exact h1

theorem strLt_or_gt_of_ne {a b : String} (hne : a ≠ b) :
    strLt a b = true ∨ strLt b a = true := by
  rcases strLt_trichotomy a b with h | rfl | h
  · exact Or.inl h
  · exact absurd rfl hne
  · exact Or.inr h

/-- Timestamp filter operator (`'eq' | 'gt' | 'lt'` in `src/types.ts`). -/
inductive FilterOp where
  | eq
  | gt
  | lt
deriving DecidableEq, Repr

/-- Kind of the id tie-break filter (`'gt' | 'lt'`). -/
inductive IdCmpKind where
  | gt
  | lt
deriving DecidableEq, Repr

/-- The optional id comparison filter of `FetchLogsOptions`. -/
structure IdCmp where
  kind : IdCmpKind
  id : String
deriving DecidableEq, Repr

/-- The `FetchLogsOptions` of `src/types.ts`. -/
structure FetchLogsOptions where
  op : FilterOp
  ts : String
  idCmp : Option IdCmp := none
  asc : Bool
  maxPages : Nat
deriving DecidableEq, Repr

/-- Ascending comparator of `sortLogs` in `src/ai-gateway.ts` as a
boolean "less or equal": compare `created_at` first (`localeCompare`),
then `id`. -/
def logAscLe (a b : Log) : Bool :=
  if a.created_at = b.created_at then strLe a.id b.id
  else strLt a.created_at b.created_at

/-- Descending comparator of `sortLogs` (the negated comparison). -/
def logDescLe (a b : Log) : Bool :=
  if a.created_at = b.created_at then strLe b.id a.id
  else strLt b.created_at a.created_at

/-- The ascending comparator as a relation. -/
def LogAsc (a b : Log) : Prop := logAscLe a b = true

/-- The descending comparator as a relation. -/
def LogDesc (a b : Log) : Prop := logDescLe a b = true

instance : DecidableRel LogAsc := fun a b =>
  inferInstanceAs (Decidable (logAscLe a b = true))

instance : DecidableRel LogDesc := fun a b =>
  inferInstanceAs (Decidable (logDescLe a b = true))

/-- The `sortLogs` function of `src/ai-gateway.ts`: a stable comparator sort by
`(created_at, id)`, ascending or descending (JS `Array.prototype.sort`
is a stable sort; we model it by insertion sort on the comparator). -/
def sortLogs (logs : List Log) (ascending : Bool) : List Log :=
  if ascending then logs.insertionSort LogAsc else logs.insertionSort LogDesc

/-- Modelled from the spec: the remote Log Source's timestamp filter
`{key: created_at, operator, value: [ts]}` (spec section 6; the filters
are built but not evaluated in `src/ai-gateway.ts`). -/
def tsMatches (op : FilterOp) (ts : String) (log : Log) : Bool :=
  match op with
  | .eq => decide (log.created_at = ts)
  | .gt => strLt ts log.created_at
  | .lt => strLt log.created_at ts

/-- Modelled from the spec: the remote Log Source's id filter
`{key: id, operator, value: [id]}` used for tie-breaking. -/
def idMatches (cmp : Option IdCmp) (log : Log) : Bool :=
  match cmp with
  | none => true
  | some c =>
    match c.kind with
    | .gt => strLt c.id log.id
    | .lt => strLt log.id c.id

/-- A record matches a fetch request iff it passes both filters. -/
def logMatches (o : FetchLogsOptions) (log : Log) : Bool :=
  tsMatches o.op o.ts log && idMatches o.idCmp log

/-- The pagination loop of `fetchLogs` (`src/ai-gateway.ts`): request
pages of `perPage` records until the page budget is exhausted, a page
comes back empty, or a page is shorter than `perPage`.  Advancing the
page number is represented by dropping the records already consumed
from the (static, already filtered and ordered) remote sequence. -/
def fetchPagesFrom (perPage : Nat) : Nat → List Log → List Log
  | 0, _ => []
  | fuel + 1, rest =>
    let page := rest.take perPage
    if page.length = 0 then []
    else if page.length < perPage then page
    else page ++ fetchPagesFrom perPage fuel (rest.drop perPage)

/-- The `fetchLogs` function against a static source: the remote side filters by the
request's predicates and orders by `(created_at, id)` (modelled from the
spec, section 6), and the client pages through the result. -/
def fetchLogs (source : List Log) (perPage : Nat) (o : FetchLogsOptions) : List Log :=
  fetchPagesFrom perPage o.maxPages (sortLogs (source.filter (logMatches o)) o.asc)

/-- The per-record loop of `dedupAndFilter` (`src/dedup.ts`): drop
records with an empty id, drop ids already seen in this batch (the
in-batch `seen` set, updated before the KV lookup), drop ids that have a
durable marker `id:<id>` in IDS_KV, and accept the rest in order. -/
def dedupLoop (marked : List String) : List Log → List String → List Log
  | [], _ => []
  | log :: rest, seen =>
    if log.id = "" then dedupLoop marked rest seen
    else if log.id ∈ seen then dedupLoop marked rest seen
    else if ("id:" ++ log.id) ∈ marked then dedupLoop marked rest (log.id :: seen)
    else log :: dedupLoop marked rest (log.id :: seen)

/-- The marker writes issued after the batch is decided: one
`IDS_KV.put("id:" ++ id)` per accepted record; an individual write
failure (`markFail`) is caught and swallowed, so that id is simply not
marked. -/
def dedupMarks (markFail : String → Bool) (output : List Log) : List String :=
  output.filterMap fun log =>
    if markFail log.id then none else some ("id:" ++ log.id)

/-- The `dedupAndFilter` function of `src/dedup.ts`: returns the accepted records
(`output`, computed by `dedupLoop` with an empty in-batch set) and the
IDS_KV key set after the best-effort marker writes (guarded by
`output.length > 0`). -/
def dedupAndFilter (marked : List String) (markFail : String → Bool)
    (logs : List Log) : List Log × List String :=
  (dedupLoop marked logs [],
    if (dedupLoop marked logs []).length > 0 then
      marked ++ dedupMarks markFail (dedupLoop marked logs [])
    else marked)

/-- The sink's bulk-insert response: HTTP-level success plus an optional
list of per-row insert errors (`insertErrors[].index`). -/
structure SinkResp where
  ok : Bool
  insertErrors : List Nat
deriving DecidableEq, Repr

/-- The `bqInsertAll` function of `src/bigquery.ts`: empty batches return at once; a
non-ok HTTP response throws; an ok response only logs any per-row
`insertErrors` and returns successfully. -/
def bqInsertAll (resp : SinkResp) (logs : List Log) : Except Unit Unit :=
  if logs.length = 0 then .ok ()
  else if !resp.ok then .error ()
  else .ok ()

/-- The durable KV state: STATE_KV keys `forward`, `oldest`,
`backfill_stop_at`, and the IDS_KV dedup-marker key set. -/
structure KVState where
  forward : Option CursorState
  oldest : Option String
  backfill_stop_at : Option String
  marked : List String
deriving DecidableEq, Repr

/-- The environment of one forward cycle: the static source, the
defaulted lookback timestamp, the page-size/budget configuration, and
the failure behaviour of the external calls in this cycle. -/
structure FwdEnv where
  source : List Log
  nowMinus10m : String
  perPage : Nat
  forwardMaxPages : Nat
  fetchOk : Bool
  sink : SinkResp
  markFail : String → Bool

/-- The phase-1 fetch request of `runForward`: records at the cursor's
exact timestamp with a strictly greater id, ascending, 5 pages. -/
def phase1Opts (lastTs lastId : String) : FetchLogsOptions :=
  { op := .eq, ts := lastTs, idCmp := some ⟨.gt, lastId⟩, asc := true, maxPages := 5 }

/-- The phase-2 fetch request of `runForward`: records strictly newer
than the cursor's timestamp, ascending, `FORWARD_MAX_PAGES` pages. -/
def phase2Opts (lastTs : String) (maxPages : Nat) : FetchLogsOptions :=
  { op := .gt, ts := lastTs, asc := true, maxPages := maxPages }

/-- The loaded forward-cursor timestamp (`cursor?.ts ?? nowMinus10m`). -/
def forwardCursorTs (e : FwdEnv) (s : KVState) : String :=
  match s.forward with
  | some c => c.ts
  | none => e.nowMinus10m

/-- The loaded forward-cursor id (`cursor?.id ?? ''`). -/
def forwardCursorId (s : KVState) : String :=
  match s.forward with
  | some c => c.id
  | none => ""

/-- The concatenated phase-1 and phase-2 fetch results of one forward
cycle (`[...phase1, ...phase2]`). -/
def forwardAllLogs (e : FwdEnv) (s : KVState) : List Log :=
  fetchLogs e.source e.perPage (phase1Opts (forwardCursorTs e s) (forwardCursorId s)) ++
    fetchLogs e.source e.perPage (phase2Opts (forwardCursorTs e s) e.forwardMaxPages)

/-- The dedup step of one forward cycle. -/
def forwardDedup (e : FwdEnv) (s : KVState) : List Log × List String :=
  dedupAndFilter s.marked e.markFail (forwardAllLogs e s)

/-- The `toSend` batch of one forward cycle (post-dedup). -/
def forwardToSend (e : FwdEnv) (s : KVState) : List Log :=
  (forwardDedup e s).1

/-- The `runForward` controller of `src/index.ts`: load the cursor (defaulting to
now-minus-10-minutes and the empty id), run the phase-1 (eq ts, id gt,
5 pages) and phase-2 (gt ts) fetches, dedup, sink-write, then commit the
cursor to the last record of the filtered batch and record the oldest
marker if it is unset (JS truthiness: absent or empty).  The returned
flag is `false` when the cycle threw; the returned state is the KV state
at that point (marker writes from the dedup step persist). -/
def runForward (e : FwdEnv) (s : KVState) : Bool × KVState :=
  if !e.fetchOk then (false, s)
  else
    let dedup := forwardDedup e s
    let toSend := dedup.1
    let s1 : KVState := { s with marked := dedup.2 }
    if hne : toSend.length > 0 then
      match bqInsertAll e.sink toSend with
      | .error _ => (false, s1)
      | .ok _ =>
        let lastLog := toSend.getLast (by intro h; simp [h] at hne)
        let s2 : KVState := { s1 with forward := some ⟨lastLog.created_at, lastLog.id⟩ }
        let oldestUnset := match s2.oldest with
          | none => true
          | some t => decide (t = "")
        if oldestUnset then
          (true, { s2 with oldest := some ((toSend.head (by intro h; simp [h] at hne)).created_at) })
        else (true, s2)
    else (true, s1)

/-- Iterated forward cycles (the state after `n` scheduled ticks). -/
def iterForward (e : FwdEnv) : Nat → KVState → KVState
  | 0, s => s
  | n + 1, s => iterForward e n (runForward e s).2

/-- The environment of one backfill cycle. -/
structure BkEnv where
  source : List Log
  perPage : Nat
  backfillMaxPages : Nat
  fetchOk : Bool
  sink : SinkResp
  markFail : String → Bool

/-- The default backfill stop boundary (`'1970-01-01T00:00:00Z'`). -/
def epochStop : String := "1970-01-01T00:00:00Z"

/-- The effective stop boundary:
`(await STATE_KV.get('backfill_stop_at')) || '1970-01-01T00:00:00Z'`
(JS `||`: an absent or empty value falls back to the default). -/
def backfillStopOf (s : KVState) : String :=
  match s.backfill_stop_at with
  | none => epochStop
  | some t => if t = "" then epochStop else t

/-- The backfill fetch request: records strictly older than the oldest
marker, descending, `BACKFILL_MAX_PAGES` pages. -/
def backfillOpts (oldest : String) (maxPages : Nat) : FetchLogsOptions :=
  { op := .lt, ts := oldest, asc := false, maxPages := maxPages }

/-- The raw batch fetched by one backfill cycle from marker `oldest`. -/
def backfillBatch (e : BkEnv) (oldest : String) : List Log :=
  fetchLogs e.source e.perPage (backfillOpts oldest e.backfillMaxPages)

/-- The chronological re-sort of the backfill batch
(`[...batch].sort((a, b) => a.created_at.localeCompare(b.created_at) ||
a.id.localeCompare(b.id))`, the same ascending comparator as
`sortLogs`). -/
def backfillSorted (e : BkEnv) (oldest : String) : List Log :=
  (backfillBatch e oldest).insertionSort LogAsc

/-- The dedup step of one backfill cycle. -/
def backfillDedup (e : BkEnv) (s : KVState) (oldest : String) : List Log × List String :=
  dedupAndFilter s.marked e.markFail (backfillSorted e oldest)

/-- The `toSend` batch of one backfill cycle (post-dedup). -/
def backfillToSend (e : BkEnv) (s : KVState) (oldest : String) : List Log :=
  (backfillDedup e s oldest).1

/-- The `runBackfill` controller of `src/index.ts`: no-op when the oldest marker is
absent (JS truthiness: absent or empty); otherwise fetch records older
than the marker (descending), delete the marker when the fetch is empty,
else re-sort ascending, dedup, sink-write, and advance: delete the
marker when the new oldest value has reached the stop boundary,
otherwise store it. -/
def runBackfill (e : BkEnv) (s : KVState) : Bool × KVState :=
  match s.oldest with
  | none => (true, s)
  | some oldest =>
    if oldest = "" then (true, s)
    else
      let stopAt := backfillStopOf s
      if !e.fetchOk then (false, s)
      else
        let batch := backfillBatch e oldest
        if batch.length = 0 then (true, { s with oldest := none })
        else
          let dedup := backfillDedup e s oldest
          let toSend := dedup.1
          let s1 : KVState := { s with marked := dedup.2 }
          if hne : toSend.length > 0 then
            match bqInsertAll e.sink toSend with
            | .error _ => (false, s1)
            | .ok _ =>
              let newOldest := (toSend.head (by intro h; simp [h] at hne)).created_at
              if strLe newOldest stopAt then (true, { s1 with oldest := none })
              else (true, { s1 with oldest := some newOldest })
          else (true, s1)

/-- Iterated backfill cycles (the state after `n` scheduled ticks). -/
def iterBackfill (e : BkEnv) : Nat → KVState → KVState
  | 0, s => s
  | n + 1, s => iterBackfill e n (runBackfill e s).2

/-- Strict lexicographic `(created_at, id)` order on records: the order
the spec's "ascending (timestamp, id)" statements refer to. -/
def logKeyLt (a b : Log) : Prop :=
  strLt a.created_at b.created_at = true ∨
    (a.created_at = b.created_at ∧ strLt a.id b.id = true)

instance (a b : Log) : Decidable (logKeyLt a b) :=
  inferInstanceAs (Decidable (strLt a.created_at b.created_at = true ∨
    (a.created_at = b.created_at ∧ strLt a.id b.id = true)))

/-- The cursor position `(ts, id)` is strictly below record `l`. -/
def cursorLtLog (c : CursorState) (l : Log) : Prop :=
  strLt c.ts l.created_at = true ∨ (c.ts = l.created_at ∧ strLt c.id l.id = true)

instance (c : CursorState) (l : Log) : Decidable (cursorLtLog c l) :=
  inferInstanceAs (Decidable (strLt c.ts l.created_at = true ∨
    (c.ts = l.created_at ∧ strLt c.id l.id = true)))

/-! ### Basic facts about the comparator -/

/-- Non-strict lexicographic `(created_at, id)` order, the propositional
reading of the ascending comparator. -/
def logLe (a b : Log) : Prop :=
  strLt a.created_at b.created_at = true ∨
    (a.created_at = b.created_at ∧ strLe a.id b.id = true)

theorem logAscLe_eq_true_iff (a b : Log) : logAscLe a b = true ↔ logLe a b := by
  unfold logAscLe logLe
  by_cases h : a.created_at = b.created_at
  · rw [if_pos h]
    constructor
    · exact fun hid => Or.inr ⟨h, hid⟩
    · rintro (hlt | ⟨-, hid⟩)
      · rw [h, strLt_irrefl] at hlt
        cases hlt
      · exact hid
  · rw [if_neg h]
    constructor
    · exact Or.inl
    · rintro (hlt | ⟨he, -⟩)
      · exact hlt
      · exact absurd he h

theorem logLe_total (a b : Log) : logLe a b ∨ logLe b a := by
  unfold logLe
  rcases strLt_trichotomy a.created_at b.created_at with h | h | h
  · exact Or.inl (Or.inl h)
  · rcases strLe_total a.id b.id with hid | hid
    · exact Or.inl (Or.inr ⟨h, hid⟩)
    · exact Or.inr (Or.inr ⟨h.symm, hid⟩)
  · exact Or.inr (Or.inl h)

theorem logLe_trans {a b c : Log} (hab : logLe a b) (hbc : logLe b c) :
    logLe a c := by
  unfold logLe at *
  rcases hab with hab | ⟨hab, hab'⟩ <;> rcases hbc with hbc | ⟨hbc, hbc'⟩
  · exact Or.inl (strLt_trans hab hbc)
  · exact Or.inl (hbc ▸ hab)
  · exact Or.inl (hab ▸ hbc)
  · exact Or.inr ⟨hab.trans hbc, strLe_trans hab' hbc'⟩

theorem logAscLe_total (a b : Log) : logAscLe a b || logAscLe b a := by
  rw [Bool.or_eq_true, logAscLe_eq_true_iff, logAscLe_eq_true_iff]
  exact logLe_total a b

theorem logAscLe_trans (a b c : Log) (hab : logAscLe a b) (hbc : logAscLe b c) :
    logAscLe a c := by
  rw [logAscLe_eq_true_iff] at *
  exact logLe_trans hab hbc

/-- A comparator-le pair of distinct records is strictly ordered. -/
theorem logKeyLt_of_logAscLe_of_ne {a b : Log} (h : logAscLe a b = true) (hne : a ≠ b) :
    logKeyLt a b := by
  rw [logAscLe_eq_true_iff] at h
  unfold logLe at h
  unfold logKeyLt
  rcases h with h | ⟨hts, hid⟩
  · exact Or.inl h
  · refine Or.inr ⟨hts, strLt_of_le_of_ne hid fun hideq => hne ?_⟩
    cases a; cases b
    cases hts; cases hideq; rfl

theorem logAscLe_of_logKeyLt {a b : Log} (h : logKeyLt a b) : logAscLe a b = true := by
  rw [logAscLe_eq_true_iff]
  unfold logKeyLt at h
  unfold logLe
  rcases h with h | ⟨hts, hid⟩
  · exact Or.inl h
  · exact Or.inr ⟨hts, strLe_of_lt hid⟩

theorem logKeyLt_irrefl (a : Log) : ¬ logKeyLt a a := by
  unfold logKeyLt
  rintro (h | ⟨-, h⟩) <;> (rw [strLt_irrefl] at h; cases h)

instance : IsTotal Log LogAsc :=
  ⟨fun a b => by
    unfold LogAsc
    rcases logLe_total a b with h | h
    · exact Or.inl ((logAscLe_eq_true_iff a b).mpr h)
    · exact Or.inr ((logAscLe_eq_true_iff b a).mpr h)⟩

instance : IsTrans Log LogAsc :=
  ⟨fun a b c hab hbc => logAscLe_trans a b c hab hbc⟩

theorem mem_sortLogs {logs : List Log} {asc : Bool} {l : Log} :
    l ∈ sortLogs logs asc ↔ l ∈ logs := by
  unfold sortLogs
  cases asc <;> simp

theorem length_sortLogs (logs : List Log) (asc : Bool) :
    (sortLogs logs asc).length = logs.length := by
  unfold sortLogs
  cases asc <;> simp [List.length_insertionSort]

theorem sortLogs_perm (logs : List Log) (asc : Bool) :
    (sortLogs logs asc).Perm logs := by
  unfold sortLogs
  cases asc <;> exact List.perm_insertionSort _ _

/-! ### The pagination loop -/

/-- The pagination loop returns exactly the first
`maxPages * perPage` records of the filtered, ordered remote sequence. -/
theorem fetchPagesFrom_eq_take (perPage : Nat) :
    ∀ (fuel : Nat) (rest : List Log),
      fetchPagesFrom perPage fuel rest = rest.take (fuel * perPage)
  | 0, rest => by simp [fetchPagesFrom]
  | fuel + 1, rest => by
    unfold fetchPagesFrom
    simp only [List.length_take]
    by_cases hzero : min perPage rest.length = 0
    · rcases Nat.min_eq_zero_iff.mp hzero with hp | hr
      · subst hp
        simp [Nat.mul_zero]
      · have : rest = [] := List.length_eq_zero.mp hr
        subst this
        simp
    · rw [if_neg hzero]
      by_cases hlt : min perPage rest.length < perPage
      · rw [if_pos hlt]
        have hr : rest.length < perPage := by omega
        rw [List.take_of_length_le (le_of_lt hr),
          List.take_of_length_le (le_trans (le_of_lt hr) (by calc
            perPage = 1 * perPage := (Nat.one_mul _).symm
            _ ≤ (fuel + 1) * perPage := Nat.mul_le_mul_right _ (by omega)))]
      · rw [if_neg hlt]
        rw [fetchPagesFrom_eq_take perPage fuel (rest.drop perPage)]
        have : (fuel + 1) * perPage = perPage + fuel * perPage := by ring
        rw [this, List.take_add]

/-- Within the page budget the fetch returns the whole filtered, ordered
remote sequence. -/
theorem fetchLogs_of_le_budget (source : List Log) (perPage : Nat)
    (o : FetchLogsOptions)
    (h : (source.filter (logMatches o)).length ≤ o.maxPages * perPage) :
    fetchLogs source perPage o = sortLogs (source.filter (logMatches o)) o.asc := by
  unfold fetchLogs
  rw [fetchPagesFrom_eq_take]
  apply List.take_of_length_le
  rw [length_sortLogs]
  exact h

/-- Every fetched record comes from the source and matches the request's
filters. -/
theorem mem_of_mem_fetchLogs {source : List Log} {perPage : Nat}
    {o : FetchLogsOptions} {l : Log} (h : l ∈ fetchLogs source perPage o) :
    l ∈ source ∧ logMatches o l = true := by
  unfold fetchLogs at h
  rw [fetchPagesFrom_eq_take] at h
  have h1 : l ∈ source.filter (logMatches o) :=
    mem_sortLogs.mp (List.mem_of_mem_take h)
  exact ⟨List.mem_of_mem_filter h1, List.of_mem_filter h1⟩

/-! ### The dedup filter -/

/-- The key written to IDS_KV for a record id. -/
theorem idKey_inj {x y : String} (h : "id:" ++ x = "id:" ++ y) : x = y := by
  have hd := congrArg String.data h
  rw [String.data_append, String.data_append] at hd
  have := List.append_cancel_left hd
  cases x; cases y
  exact congrArg String.mk this

/-- The accepted records are a sublist of the input batch: ordering of
accepted records mirrors input order. -/
theorem dedupLoop_sublist (marked : List String) :
    ∀ (logs : List Log) (seen : List String),
      List.Sublist (dedupLoop marked logs seen) logs
  | [], _ => by simp [dedupLoop]
  | log :: rest, seen => by
    unfold dedupLoop
    by_cases h1 : log.id = ""
    · rw [if_pos h1]
      exact (dedupLoop_sublist marked rest seen).cons _
    · rw [if_neg h1]
      by_cases h2 : log.id ∈ seen
      · rw [if_pos h2]
        exact (dedupLoop_sublist marked rest seen).cons _
      · rw [if_neg h2]
        by_cases h3 : ("id:" ++ log.id) ∈ marked
        · rw [if_pos h3]
          exact (dedupLoop_sublist marked rest _).cons _
        · rw [if_neg h3]
          exact (dedupLoop_sublist marked rest _).cons₂ _

/-- Every accepted record has a nonempty id, no durable marker, and an
id outside the running in-batch set. -/
theorem of_mem_dedupLoop (marked : List String) :
    ∀ (logs : List Log) (seen : List String) (l : Log),
      l ∈ dedupLoop marked logs seen →
        l.id ≠ "" ∧ ("id:" ++ l.id) ∉ marked ∧ l.id ∉ seen
  | [], _, l, h => by simp [dedupLoop] at h
  | log :: rest, seen, l, h => by
    unfold dedupLoop at h
    by_cases h1 : log.id = ""
    · rw [if_pos h1] at h
      exact of_mem_dedupLoop marked rest seen l h
    · rw [if_neg h1] at h
      by_cases h2 : log.id ∈ seen
      · rw [if_pos h2] at h
        exact of_mem_dedupLoop marked rest seen l h
      · rw [if_neg h2] at h
        by_cases h3 : ("id:" ++ log.id) ∈ marked
        · rw [if_pos h3] at h
          have ih := of_mem_dedupLoop marked rest _ l h
          refine ⟨ih.1, ih.2.1, fun hs => ih.2.2 (List.mem_cons_of_mem _ hs)⟩
        · rw [if_neg h3] at h
          rcases List.mem_cons.mp h with rfl | h
          · exact ⟨h1, h3, h2⟩
          · have ih := of_mem_dedupLoop marked rest _ l h
            refine ⟨ih.1, ih.2.1, fun hs => ih.2.2 (List.mem_cons_of_mem _ hs)⟩

/-- Accepted ids are pairwise distinct: in-batch duplicates are
dropped. -/
theorem dedupLoop_ids_nodup (marked : List String) :
    ∀ (logs : List Log) (seen : List String),
      ((dedupLoop marked logs seen).map Log.id).Nodup
  | [], _ => by simp [dedupLoop]
  | log :: rest, seen => by
    unfold dedupLoop
    by_cases h1 : log.id = ""
    · rw [if_pos h1]
      exact dedupLoop_ids_nodup marked rest seen
    · rw [if_neg h1]
      by_cases h2 : log.id ∈ seen
      · rw [if_pos h2]
        exact dedupLoop_ids_nodup marked rest seen
      · rw [if_neg h2]
        by_cases h3 : ("id:" ++ log.id) ∈ marked
        · rw [if_pos h3]
          exact dedupLoop_ids_nodup marked rest _
        · rw [if_neg h3]
          rw [List.map_cons, List.nodup_cons]
          refine ⟨fun hmem => ?_, dedupLoop_ids_nodup marked rest _⟩
          rcases List.mem_map.mp hmem with ⟨a, ha, hid⟩
          exact (of_mem_dedupLoop marked rest _ a ha).2.2 (hid ▸ List.mem_cons_self _ _)

/-- Completeness: a record with a fresh admissible id is represented in
the output. -/
theorem exists_mem_dedupLoop (marked : List String) :
    ∀ (logs : List Log) (seen : List String) (l : Log),
      l ∈ logs → l.id ≠ "" → ("id:" ++ l.id) ∉ marked → l.id ∉ seen →
        ∃ a ∈ dedupLoop marked logs seen, a.id = l.id
  | [], _, l, h, _, _, _ => absurd h (List.not_mem_nil l)
  | log :: rest, seen, l, h, hid, hmk, hsn => by
    unfold dedupLoop
    by_cases h1 : log.id = ""
    · rw [if_pos h1]
      rcases List.mem_cons.mp h with rfl | h
      · exact absurd h1 hid
      · exact exists_mem_dedupLoop marked rest seen l h hid hmk hsn
    · rw [if_neg h1]
      by_cases h2 : log.id ∈ seen
      · rw [if_pos h2]
        rcases List.mem_cons.mp h with rfl | h
        · exact absurd h2 hsn
        · exact exists_mem_dedupLoop marked rest seen l h hid hmk hsn
      · rw [if_neg h2]
        by_cases h3 : ("id:" ++ log.id) ∈ marked
        · rw [if_pos h3]
          have hne : log.id ≠ l.id := fun hh => hmk (hh ▸ h3)
          rcases List.mem_cons.mp h with rfl | h
          · exact absurd rfl hne
          · exact exists_mem_dedupLoop marked rest _ l h hid hmk
              (by rw [List.mem_cons]; rintro (hh | hh) <;> [exact hne hh.symm; exact hsn hh])
        · rw [if_neg h3]
          by_cases hne : log.id = l.id
          · exact ⟨log, List.mem_cons_self _ _, hne⟩
          · rcases List.mem_cons.mp h with rfl | h
            · exact absurd rfl hne
            · rcases exists_mem_dedupLoop marked rest _ l h hid hmk
                (by rw [List.mem_cons]; rintro (hh | hh) <;> [exact hne hh.symm; exact hsn hh]) with
                ⟨a, ha, haid⟩
              exact ⟨a, List.mem_cons_of_mem _ ha, haid⟩

/-- Each accepted record is the first record of the batch carrying its
id (in-batch duplicates after it are dropped, and only the first
occurrence is accepted). -/
theorem find?_of_mem_dedupLoop (marked : List String) :
    ∀ (logs : List Log) (seen : List String) (a : Log),
      a ∈ dedupLoop marked logs seen →
        logs.find? (fun l => l.id = a.id) = some a
  | [], _, a, h => by simp [dedupLoop] at h
  | log :: rest, seen, a, h => by
    unfold dedupLoop at h
    by_cases h1 : log.id = ""
    · rw [if_pos h1] at h
      have ih := of_mem_dedupLoop marked rest seen a h
      rw [List.find?_cons_of_neg, find?_of_mem_dedupLoop marked rest seen a h]
      simp only [decide_eq_true_eq]
      exact fun hh => ih.1 (hh ▸ h1)
    · rw [if_neg h1] at h
      by_cases h2 : log.id ∈ seen
      · rw [if_pos h2] at h
        have ih := of_mem_dedupLoop marked rest seen a h
        rw [List.find?_cons_of_neg, find?_of_mem_dedupLoop marked rest seen a h]
        simp only [decide_eq_true_eq]
        exact fun hh => ih.2.2 (hh ▸ h2)
      · rw [if_neg h2] at h
        by_cases h3 : ("id:" ++ log.id) ∈ marked
        · rw [if_pos h3] at h
          have ih := of_mem_dedupLoop marked rest _ a h
          rw [List.find?_cons_of_neg, find?_of_mem_dedupLoop marked rest _ a h]
          simp only [decide_eq_true_eq]
          exact fun hh => ih.2.2 (hh ▸ List.mem_cons_self _ _)
        · rw [if_neg h3] at h
          rcases List.mem_cons.mp h with rfl | h
          · exact List.find?_cons_of_pos _ (by simp)
          · have ih := of_mem_dedupLoop marked rest _ a h
            rw [List.find?_cons_of_neg, find?_of_mem_dedupLoop marked rest _ a h]
            simp only [decide_eq_true_eq]
            exact fun hh => ih.2.2 (hh ▸ List.mem_cons_self _ _)

/-- When every record of the batch is admissible (nonempty id, no
marker, ids pairwise distinct) the filter accepts the whole batch. -/
theorem dedupLoop_eq_self (marked : List String) :
    ∀ (logs : List Log) (seen : List String),
      (∀ l ∈ logs, l.id ≠ "" ∧ ("id:" ++ l.id) ∉ marked ∧ l.id ∉ seen) →
      (logs.map Log.id).Nodup →
        dedupLoop marked logs seen = logs
  | [], _, _, _ => by simp [dedupLoop]
  | log :: rest, seen, hall, hnd => by
    have hlog := hall log (List.mem_cons_self _ _)
    unfold dedupLoop
    rw [if_neg hlog.1, if_neg hlog.2.2, if_neg hlog.2.1]
    rw [List.map_cons, List.nodup_cons] at hnd
    rw [dedupLoop_eq_self marked rest _ ?_ hnd.2]
    intro l hl
    have := hall l (List.mem_cons_of_mem _ hl)
    refine ⟨this.1, this.2.1, ?_⟩
    rw [List.mem_cons]
    rintro (hh | hh)
    · exact hnd.1 (hh ▸ List.mem_map_of_mem Log.id hl)
    · exact this.2.2 hh

/-- Membership in the marker writes. -/
theorem mem_dedupMarks {markFail : String → Bool} {output : List Log} {k : String} :
    k ∈ dedupMarks markFail output ↔
      ∃ a ∈ output, markFail a.id = false ∧ k = "id:" ++ a.id := by
  unfold dedupMarks
  rw [List.mem_filterMap]
  constructor
  · rintro ⟨a, ha, hk⟩
    by_cases hm : markFail a.id
    · rw [if_pos hm] at hk
      cases hk
    · rw [if_neg hm] at hk
      exact ⟨a, ha, Bool.eq_false_iff.mpr hm, (Option.some_inj.mp hk).symm⟩
  · rintro ⟨a, ha, hm, rfl⟩
    refine ⟨a, ha, ?_⟩
    rw [if_neg (by rw [hm]; exact Bool.false_ne_true)]

/-! ### The sink writer -/

theorem bqInsertAll_ok {resp : SinkResp} (logs : List Log) (h : resp.ok = true) :
    bqInsertAll resp logs = .ok () := by
  unfold bqInsertAll
  rw [h]
  by_cases hl : logs.length = 0
  · rw [if_pos hl]
  · rw [if_neg hl]
    rfl

theorem bqInsertAll_error {resp : SinkResp} {logs : List Log} (h : resp.ok = false)
    (hl : logs ≠ []) : bqInsertAll resp logs = .error () := by
  unfold bqInsertAll
  rw [h]
  rw [if_neg (fun hh => hl (List.length_eq_zero.mp hh))]
  rfl

/-! ### Case analysis of one forward cycle -/

theorem runForward_fetchFail (e : FwdEnv) (s : KVState) (h : e.fetchOk = false) :
    runForward e s = (false, s) := by
  unfold runForward
  rw [h]
  rfl

theorem runForward_empty (e : FwdEnv) (s : KVState) (hf : e.fetchOk = true)
    (hd : forwardToSend e s = []) :
    runForward e s = (true, { s with marked := (forwardDedup e s).2 }) := by
  unfold runForward
  rw [hf]
  simp only [Bool.not_true, Bool.false_eq_true, if_false]
  rw [dif_neg]
  unfold forwardToSend at hd
  rw [hd]
  simp

theorem runForward_sinkFail (e : FwdEnv) (s : KVState) (hf : e.fetchOk = true)
    (hs : e.sink.ok = false) (hne : forwardToSend e s ≠ []) :
    runForward e s = (false, { s with marked := (forwardDedup e s).2 }) := by
  unfold runForward
  rw [hf]
  simp only [Bool.not_true, Bool.false_eq_true, if_false]
  unfold forwardToSend at hne
  rw [dif_pos (List.length_pos.mpr hne)]
  rw [bqInsertAll_error hs hne]

/-- A successful forward cycle with a nonempty filtered batch: the
cursor commits to the last record; the oldest marker is set to the first
record's timestamp when it was unset (JS-falsy), else untouched. -/
theorem runForward_success (e : FwdEnv) (s : KVState) (hf : e.fetchOk = true)
    (hs : e.sink.ok = true) (hne : forwardToSend e s ≠ []) :
    runForward e s =
      (true,
        { s with
          marked := (forwardDedup e s).2,
          forward := some ⟨((forwardToSend e s).getLast hne).created_at,
            ((forwardToSend e s).getLast hne).id⟩,
          oldest :=
            match s.oldest with
            | none => some (((forwardToSend e s).head hne).created_at)
            | some t =>
              if t = "" then some (((forwardToSend e s).head hne).created_at)
              else some t }) := by
  unfold runForward
  rw [hf]
  simp only [Bool.not_true, Bool.false_eq_true, if_false]
  unfold forwardToSend at hne
  rw [dif_pos (List.length_pos.mpr hne)]
  rw [bqInsertAll_ok _ hs]
  cases hold : s.oldest with
  | none => simp [forwardToSend]
  | some t =>
    by_cases ht : t = ""
    · simp [ht, forwardToSend]
    · simp [ht, forwardToSend]

/-! ### Case analysis of one backfill cycle -/

theorem runBackfill_noMarker (e : BkEnv) (s : KVState) (h : s.oldest = none) :
    runBackfill e s = (true, s) := by
  unfold runBackfill
  rw [h]

theorem runBackfill_emptyMarker (e : BkEnv) (s : KVState) (h : s.oldest = some "") :
    runBackfill e s = (true, s) := by
  unfold runBackfill
  rw [h]
  simp

theorem runBackfill_fetchFail (e : BkEnv) (s : KVState) (t : String)
    (h : s.oldest = some t) (ht : t ≠ "") (hf : e.fetchOk = false) :
    runBackfill e s = (false, s) := by
  unfold runBackfill
  rw [h]
  simp only [if_neg ht, hf]
  rfl

theorem runBackfill_emptyFetch (e : BkEnv) (s : KVState) (t : String)
    (h : s.oldest = some t) (ht : t ≠ "") (hf : e.fetchOk = true)
    (hb : backfillBatch e t = []) :
    runBackfill e s = (true, { s with oldest := none }) := by
  unfold runBackfill
  rw [h]
  simp only [if_neg ht, hf, Bool.not_true, Bool.false_eq_true, if_false]
  rw [hb]
  simp

theorem runBackfill_dedupEmpty (e : BkEnv) (s : KVState) (t : String)
    (h : s.oldest = some t) (ht : t ≠ "") (hf : e.fetchOk = true)
    (hb : backfillBatch e t ≠ []) (hd : backfillToSend e s t = []) :
    runBackfill e s = (true, s) := by
  unfold runBackfill
  rw [h]
  simp only [if_neg ht, hf, Bool.not_true, Bool.false_eq_true, if_false]
  rw [if_neg (fun hh => hb (List.length_eq_zero.mp hh))]
  unfold backfillToSend at hd
  rw [dif_neg (by rw [hd]; simp)]
  unfold backfillDedup dedupAndFilter at hd ⊢
  simp only at hd ⊢
  rw [hd]
  simp
  rw [← h]

theorem runBackfill_sinkFail (e : BkEnv) (s : KVState) (t : String)
    (h : s.oldest = some t) (ht : t ≠ "") (hf : e.fetchOk = true)
    (hb : backfillBatch e t ≠ []) (hd : backfillToSend e s t ≠ [])
    (hs : e.sink.ok = false) :
    runBackfill e s = (false, { s with marked := (backfillDedup e s t).2 }) := by
  unfold runBackfill
  rw [h]
  simp only [if_neg ht, hf, Bool.not_true, Bool.false_eq_true, if_false]
  rw [if_neg (fun hh => hb (List.length_eq_zero.mp hh))]
  unfold backfillToSend at hd
  rw [dif_pos (List.length_pos.mpr hd)]
  rw [bqInsertAll_error hs hd]

/-- A backfill cycle that reaches the advance step: delete the marker
when the new oldest value has reached the stop boundary, else store
it. -/
theorem runBackfill_advance (e : BkEnv) (s : KVState) (t : String)
    (h : s.oldest = some t) (ht : t ≠ "") (hf : e.fetchOk = true)
    (hb : backfillBatch e t ≠ []) (hd : backfillToSend e s t ≠ [])
    (hs : e.sink.ok = true) :
    runBackfill e s =
      (true,
        { s with
          marked := (backfillDedup e s t).2,
          oldest :=
            if strLe ((backfillToSend e s t).head hd).created_at (backfillStopOf s) then
              none
            else some ((backfillToSend e s t).head hd).created_at }) := by
  unfold runBackfill
  rw [h]
  simp only [if_neg ht, hf, Bool.not_true, Bool.false_eq_true, if_false]
  rw [if_neg (fun hh => hb (List.length_eq_zero.mp hh))]
  unfold backfillToSend at hd
  rw [dif_pos (List.length_pos.mpr hd)]
  rw [bqInsertAll_ok _ hs]
  by_cases hstop :
      strLe ((backfillDedup e s t).1.head hd).created_at (backfillStopOf s) = true
  · simp only [backfillToSend, if_pos hstop]
  · simp only [backfillToSend, if_neg hstop]

/-- Once the marker is gone every backfill tick is a no-op. -/
theorem iterBackfill_noMarker (e : BkEnv) (s : KVState) (h : s.oldest = none) :
    ∀ n, iterBackfill e n s = s := by
  intro n
  induction n with
  | zero => rfl
  | succ n ih =>
    show iterBackfill e n (runBackfill e s).2 = s
    rw [runBackfill_noMarker e s h]
    exact ih

/-! ### Claim C3: forward cursor commit protocol -/

/-- C3: in every forward cycle, a fetch failure or a sink failure leaves
the forward cursor unchanged (a fetch failure leaves the whole state
unchanged); the cursor is written only when the sink write returned
without a fatal error, and it is then set in a single put to the
`(created_at, id)` of the last record of the filtered ordered batch. -/
theorem forward_cursor_commit_protocol (e : FwdEnv) (s : KVState) :
    (e.fetchOk = false → runForward e s = (false, s)) ∧
    (e.sink.ok = false → (runForward e s).2.forward = s.forward) ∧
    ((runForward e s).1 = false → (runForward e s).2.forward = s.forward) ∧
    (∀ h : forwardToSend e s ≠ [],
      e.fetchOk = true → e.sink.ok = true →
        (runForward e s).2.forward =
          some ⟨((forwardToSend e s).getLast h).created_at,
            ((forwardToSend e s).getLast h).id⟩) := by
  refine ⟨runForward_fetchFail e s, ?_, ?_, ?_⟩
  · intro hs
    cases hf : e.fetchOk with
    | false => rw [runForward_fetchFail e s hf]
    | true =>
      by_cases hd : forwardToSend e s = []
      · rw [runForward_empty e s hf hd]
      · rw [runForward_sinkFail e s hf hs hd]
  · intro hfail
    cases hf : e.fetchOk with
    | false => rw [runForward_fetchFail e s hf]
    | true =>
      by_cases hd : forwardToSend e s = []
      · rw [runForward_empty e s hf hd]
      · cases hs : e.sink.ok with
        | false => rw [runForward_sinkFail e s hf hs hd]
        | true => rw [runForward_success e s hf hs hd] at hfail; cases hfail
  · intro h hf hs
    rw [runForward_success e s hf hs h]

/-- Witness for C3 at a concrete cycle: a fetch failure and a sink
failure leave the cursor at its initial value, and a successful cycle
commits it to the last filtered record. -/
theorem forward_cursor_commit_protocol_witness :
    runForward ⟨[⟨"a", "10"⟩], "05", 50, 20, false, ⟨true, []⟩, fun _ => false⟩
        ⟨none, none, none, []⟩ =
      (false, ⟨none, none, none, []⟩) ∧
    (runForward ⟨[⟨"a", "10"⟩], "05", 50, 20, true, ⟨false, []⟩, fun _ => false⟩
        ⟨none, none, none, []⟩).2.forward = none ∧
    (runForward ⟨[⟨"a", "10"⟩], "05", 50, 20, true, ⟨true, []⟩, fun _ => false⟩
        ⟨none, none, none, []⟩).2.forward = some ⟨"10", "a"⟩ := by
  refine ⟨(forward_cursor_commit_protocol _ _).1 (by decide), ?_, ?_⟩
  · exact (forward_cursor_commit_protocol _ _).2.1 (by decide)
  · exact ((forward_cursor_commit_protocol
      ⟨[⟨"a", "10"⟩], "05", 50, 20, true, ⟨true, []⟩, fun _ => false⟩
      ⟨none, none, none, []⟩).2.2.2 (by decide) (by decide) (by decide)).trans (by decide)

/-! ### Claim C7: sink row errors are not fatal -/

/-- C7: a non-success HTTP-level sink response fails the whole operation
and the caller does not advance its cursor or oldest marker; a success
response carrying any list of per-row insert errors returns success, and
the forward cycle's outcome does not depend on that list at all. -/
theorem sink_row_errors_nonfatal (resp : SinkResp) (logs : List Log)
    (e : FwdEnv) (s : KVState) :
    (resp.ok = false → logs ≠ [] → bqInsertAll resp logs = .error ()) ∧
    (resp.ok = true → bqInsertAll resp logs = .ok ()) ∧
    (e.sink.ok = false →
      (runForward e s).2.forward = s.forward ∧ (runForward e s).2.oldest = s.oldest) ∧
    (∀ errs errs2 : List Nat,
      runForward { e with sink := ⟨true, errs⟩ } s =
        runForward { e with sink := ⟨true, errs2⟩ } s) := by
  refine ⟨fun h hl => bqInsertAll_error h hl, fun h => bqInsertAll_ok _ h, ?_, ?_⟩
  · intro hs
    cases hf : e.fetchOk with
    | false => rw [runForward_fetchFail e s hf]; exact ⟨rfl, rfl⟩
    | true =>
      by_cases hd : forwardToSend e s = []
      · rw [runForward_empty e s hf hd]; exact ⟨rfl, rfl⟩
      · rw [runForward_sinkFail e s hf hs hd]; exact ⟨rfl, rfl⟩
  · intro errs errs2
    by_cases hf : e.fetchOk = true
    · by_cases hd : forwardToSend e s = []
      · rw [runForward_empty { e with sink := ⟨true, errs⟩ } s hf hd,
          runForward_empty { e with sink := ⟨true, errs2⟩ } s hf hd]
        rfl
      · rw [runForward_success { e with sink := ⟨true, errs⟩ } s hf rfl hd,
          runForward_success { e with sink := ⟨true, errs2⟩ } s hf rfl hd]
        rfl
    · have hf' : e.fetchOk = false := Bool.eq_false_iff.mpr hf
      rw [runForward_fetchFail { e with sink := ⟨true, errs⟩ } s hf',
        runForward_fetchFail { e with sink := ⟨true, errs2⟩ } s hf']

/-- Witness for C7: an HTTP failure on a nonempty batch raises and the
cursor stays; an HTTP success with a per-row error present still returns
success and the cursor advances. -/
theorem sink_row_errors_nonfatal_witness :
    bqInsertAll ⟨false, []⟩ [⟨"a", "10"⟩] = .error () ∧
    bqInsertAll ⟨true, [0]⟩ [⟨"a", "10"⟩] = .ok () ∧
    (runForward ⟨[⟨"a", "10"⟩], "05", 50, 20, true, ⟨false, [0]⟩, fun _ => false⟩
        ⟨none, none, none, []⟩).2.forward = none ∧
    runForward ⟨[⟨"a", "10"⟩], "05", 50, 20, true, ⟨true, [0]⟩, fun _ => false⟩
        ⟨none, none, none, []⟩ =
      runForward ⟨[⟨"a", "10"⟩], "05", 50, 20, true, ⟨true, []⟩, fun _ => false⟩
        ⟨none, none, none, []⟩ := by
  refine ⟨(sink_row_errors_nonfatal ⟨false, []⟩ [⟨"a", "10"⟩]
      ⟨[⟨"a", "10"⟩], "05", 50, 20, true, ⟨false, [0]⟩, fun _ => false⟩
      ⟨none, none, none, []⟩).1 (by decide) (by decide), ?_, ?_, ?_⟩
  · exact (sink_row_errors_nonfatal ⟨true, [0]⟩ [⟨"a", "10"⟩]
      ⟨[⟨"a", "10"⟩], "05", 50, 20, true, ⟨false, [0]⟩, fun _ => false⟩
      ⟨none, none, none, []⟩).2.1 (by decide)
  · exact ((sink_row_errors_nonfatal ⟨true, [0]⟩ [⟨"a", "10"⟩]
      ⟨[⟨"a", "10"⟩], "05", 50, 20, true, ⟨false, [0]⟩, fun _ => false⟩
      ⟨none, none, none, []⟩).2.2.1 (by decide)).1
  · exact (sink_row_errors_nonfatal ⟨true, [0]⟩ [⟨"a", "10"⟩]
      ⟨[⟨"a", "10"⟩], "05", 50, 20, true, ⟨true, []⟩, fun _ => false⟩
      ⟨none, none, none, []⟩).2.2.2 [0] []

/-! ### Claim C8: marker-write failures are swallowed -/

/-- C8: for every batch and every subset of failing marker writes, the
dedup filter returns its full accepted output unchanged, and the calling
forward cycle's success flag, committed cursor and oldest marker are
unaffected by which marker writes failed. -/
theorem marking_failures_swallowed (marked : List String) (mf : String → Bool)
    (logs : List Log) (e : FwdEnv) (s : KVState) :
    (dedupAndFilter marked mf logs).1 =
      (dedupAndFilter marked (fun _ => false) logs).1 ∧
    (runForward { e with markFail := mf } s).1 =
      (runForward { e with markFail := fun _ => false } s).1 ∧
    (runForward { e with markFail := mf } s).2.forward =
      (runForward { e with markFail := fun _ => false } s).2.forward ∧
    (runForward { e with markFail := mf } s).2.oldest =
      (runForward { e with markFail := fun _ => false } s).2.oldest := by
  refine ⟨rfl, ?_⟩
  by_cases hf : e.fetchOk = true
  · by_cases hd : forwardToSend { e with markFail := mf } s = []
    · rw [runForward_empty { e with markFail := mf } s hf hd,
        runForward_empty { e with markFail := fun _ => false } s hf hd]
      exact ⟨rfl, rfl, rfl⟩
    · by_cases hs : e.sink.ok = true
      · rw [runForward_success { e with markFail := mf } s hf hs hd,
          runForward_success { e with markFail := fun _ => false } s hf hs hd]
        exact ⟨rfl, rfl, rfl⟩
      · have hs' : e.sink.ok = false := Bool.eq_false_iff.mpr hs
        rw [runForward_sinkFail { e with markFail := mf } s hf hs' hd,
          runForward_sinkFail { e with markFail := fun _ => false } s hf hs' hd]
        exact ⟨rfl, rfl, rfl⟩
  · have hf' : e.fetchOk = false := Bool.eq_false_iff.mpr hf
    rw [runForward_fetchFail { e with markFail := mf } s hf',
      runForward_fetchFail { e with markFail := fun _ => false } s hf']
    exact ⟨rfl, rfl, rfl⟩

/-! ### Claim C10: backfill cycle with fully-deduplicated batch -/

/-- C10: a backfill cycle whose fetch returns a nonempty batch but whose
dedup output is empty completes without error and leaves the whole
persisted state unchanged (no sink write, oldest marker neither advanced
nor deleted). -/
theorem backfill_dedupEmpty_frame (e : BkEnv) (s : KVState) (t : String)
    (h : s.oldest = some t) (ht : t ≠ "") (hf : e.fetchOk = true)
    (hb : backfillBatch e t ≠ []) (hd : backfillToSend e s t = []) :
    runBackfill e s = (true, s) :=
  runBackfill_dedupEmpty e s t h ht hf hb hd

/-- Witness for C10: a one-record source whose only record is already
marked.  The fetch is nonempty, the dedup output empty, and the cycle is
an exact no-op. -/
theorem backfill_dedupEmpty_frame_witness :
    backfillBatch ⟨[⟨"a", "05"⟩], 50, 40, true, ⟨true, []⟩, fun _ => false⟩ "10" ≠ [] ∧
    backfillToSend ⟨[⟨"a", "05"⟩], 50, 40, true, ⟨true, []⟩, fun _ => false⟩
      ⟨none, some "10", none, ["id:a"]⟩ "10" = [] ∧
    runBackfill ⟨[⟨"a", "05"⟩], 50, 40, true, ⟨true, []⟩, fun _ => false⟩
        ⟨none, some "10", none, ["id:a"]⟩ =
      (true, ⟨none, some "10", none, ["id:a"]⟩) :=
  ⟨by decide, by decide,
    backfill_dedupEmpty_frame _ _ "10" rfl (by decide) rfl (by decide) (by decide)⟩

/-! ### Claim C9: the oldest-seen marker -/

/-- C9 (amended): forward sync never changes a present nonempty oldest
marker, and it writes the marker exactly when the marker is absent — on
a successful cycle with a nonempty filtered batch, setting it to the
first record's `created_at`.  (It is not written at most once globally:
once backfill deletes the marker, a later successful forward batch
writes it again — see the counterexample.) -/
theorem oldest_marker_forward_write_once (e : FwdEnv) (s : KVState) (t : String) :
    (s.oldest = some t → t ≠ "" → (runForward e s).2.oldest = some t) ∧
    (s.oldest = none → e.fetchOk = true → e.sink.ok = true →
      ∀ h : forwardToSend e s ≠ [],
        (runForward e s).2.oldest = some (((forwardToSend e s).head h).created_at)) := by
  constructor
  · intro holds ht
    cases hf : e.fetchOk with
    | false => rw [runForward_fetchFail e s hf]; exact holds
    | true =>
      by_cases hd : forwardToSend e s = []
      · rw [runForward_empty e s hf hd]; exact holds
      · cases hs : e.sink.ok with
        | false => rw [runForward_sinkFail e s hf hs hd]; exact holds
        | true =>
          rw [runForward_success e s hf hs hd]
          simp only [holds]
          rw [if_neg ht]
  · intro holds hf hs h
    rw [runForward_success e s hf hs h]
    simp only [holds]

/-- Fixtures for the C9 counterexample: a two-record source, page
budgets of one page of one record, so the first forward batch sends only
the first record. -/
def c9FwdEnv : FwdEnv :=
  ⟨[⟨"a", "10"⟩, ⟨"b", "20"⟩], "05", 1, 1, true, ⟨true, []⟩, fun _ => false⟩

def c9BkEnv : BkEnv :=
  ⟨[⟨"a", "10"⟩, ⟨"b", "20"⟩], 1, 1, true, ⟨true, []⟩, fun _ => false⟩

/-- State after the first successful forward cycle. -/
def c9State1 : KVState := (runForward c9FwdEnv ⟨none, none, none, []⟩).2

/-- State after the following backfill cycle (nothing older exists, so
the oldest marker is deleted). -/
def c9State2 : KVState := (runBackfill c9BkEnv c9State1).2

/-- C9 counterexample: the first forward cycle writes the oldest marker
(`"10"`), backfill deletes it, and the next successful forward cycle
writes it AGAIN with a different value (`"20"`) — so across this
sequence of forward and backfill cycles forward sync writes the marker
twice and moves it, contradicting the claim. -/
theorem oldest_marker_forward_rewritten_cex :
    c9State1.oldest = some "10" ∧
    c9State2.oldest = none ∧
    (runForward c9FwdEnv c9State2).2.oldest = some "20" := by
  refine ⟨?_, ?_, ?_⟩ <;> decide

/-- Witness for the amended C9: a present marker `"07"` survives a
successful forward cycle untouched, and from an absent marker the first
successful batch writes the first record's timestamp. -/
theorem oldest_marker_forward_write_once_witness :
    (runForward ⟨[⟨"a", "10"⟩], "05", 50, 20, true, ⟨true, []⟩, fun _ => false⟩
        ⟨none, some "07", none, []⟩).2.oldest = some "07" ∧
    (runForward ⟨[⟨"a", "10"⟩], "05", 50, 20, true, ⟨true, []⟩, fun _ => false⟩
        ⟨none, none, none, []⟩).2.oldest = some "10" := by
  constructor
  · exact (oldest_marker_forward_write_once _ _ "07").1 rfl (by decide)
  · exact ((oldest_marker_forward_write_once
      ⟨[⟨"a", "10"⟩], "05", 50, 20, true, ⟨true, []⟩, fun _ => false⟩
      ⟨none, none, none, []⟩ "07").2 rfl (by decide) (by decide) (by decide)).trans
      (by decide)

/-! ### Claim C5: backfill advance respects the stop boundary -/

/-- Every record of the post-dedup backfill batch is strictly older than
the oldest marker the cycle started from. -/
theorem backfillToSend_mem_lt (e : BkEnv) (s : KVState) (t : String) {l : Log}
    (hl : l ∈ backfillToSend e s t) : strLt l.created_at t = true := by
  have h1 : l ∈ backfillSorted e t :=
    (dedupLoop_sublist s.marked (backfillSorted e t) []).subset hl
  have h2 : l ∈ backfillBatch e t := by
    unfold backfillSorted at h1
    exact (List.mem_insertionSort _).mp h1
  have h3 := mem_of_mem_fetchLogs
    (show l ∈ fetchLogs e.source e.perPage (backfillOpts t e.backfillMaxPages) from h2)
  have h4 := h3.2
  unfold logMatches backfillOpts tsMatches idMatches at h4
  simp only [Bool.and_eq_true] at h4
  exact h4.1

/-- C5: in the advance step of a backfill cycle, the marker is deleted
in that same cycle when the sent batch's earliest timestamp (the head of
the ascending post-dedup batch) has reached the stop boundary; otherwise
the marker is set to that first record's `created_at`, which is strictly
earlier than the previous oldest value. -/
theorem backfill_advance_boundary (e : BkEnv) (s : KVState) (t : String)
    (h : s.oldest = some t) (ht : t ≠ "") (hf : e.fetchOk = true)
    (hb : backfillBatch e t ≠ []) (hd : backfillToSend e s t ≠ [])
    (hs : e.sink.ok = true) :
    (strLe ((backfillToSend e s t).head hd).created_at (backfillStopOf s) = true →
      (runBackfill e s).2.oldest = none) ∧
    (strLe ((backfillToSend e s t).head hd).created_at (backfillStopOf s) = false →
      (runBackfill e s).2.oldest = some ((backfillToSend e s t).head hd).created_at ∧
        strLt ((backfillToSend e s t).head hd).created_at t = true) := by
  rw [runBackfill_advance e s t h ht hf hb hd hs]
  constructor
  · intro hstop
    simp only [if_pos hstop]
  · intro hstop
    rw [if_neg (by rw [hstop]; exact Bool.false_ne_true)]
    exact ⟨rfl, backfillToSend_mem_lt e s t (List.head_mem hd)⟩

/-- Witness for C5, both branches: with stop boundary `"06"` the batch
head `"05"` deletes the marker; with stop boundary `"00"` it stores
`"05"`, strictly below the previous marker `"10"`. -/
theorem backfill_advance_boundary_witness :
    (runBackfill ⟨[⟨"a", "05"⟩], 50, 40, true, ⟨true, []⟩, fun _ => false⟩
        ⟨none, some "10", some "06", []⟩).2.oldest = none ∧
    (runBackfill ⟨[⟨"a", "05"⟩], 50, 40, true, ⟨true, []⟩, fun _ => false⟩
        ⟨none, some "10", some "00", []⟩).2.oldest = some "05" := by
  constructor
  · exact (backfill_advance_boundary
      ⟨[⟨"a", "05"⟩], 50, 40, true, ⟨true, []⟩, fun _ => false⟩
      ⟨none, some "10", some "06", []⟩ "10" rfl (by decide) (by decide) (by decide)
      (by decide) rfl).1 (by decide)
  · exact (((backfill_advance_boundary
      ⟨[⟨"a", "05"⟩], 50, 40, true, ⟨true, []⟩, fun _ => false⟩
      ⟨none, some "10", some "00", []⟩ "10" rfl (by decide) (by decide) (by decide)
      (by decide) rfl).2 (by decide)).1).trans (by decide)

/-! ### Claim C6: the dedup filter algorithm -/

/-- C6: the dedup output is a sublist of the input (accepted records
mirror input order); every accepted record has a nonempty id and no
durable marker (so any id marked within the retention window is
excluded); accepted ids are pairwise distinct (in-batch duplicates
dropped); every input record with a fresh admissible id is represented;
each accepted record is the first record of the batch carrying its id;
and the durable markers are written only after the whole batch is
decided, one per accepted record minus the swallowed failures. -/
theorem dedup_filter_algorithm (marked : List String) (markFail : String → Bool)
    (logs : List Log) :
    List.Sublist (dedupAndFilter marked markFail logs).1 logs ∧
    (∀ l ∈ (dedupAndFilter marked markFail logs).1,
      l.id ≠ "" ∧ ("id:" ++ l.id) ∉ marked) ∧
    ((dedupAndFilter marked markFail logs).1.map Log.id).Nodup ∧
    (∀ l ∈ logs, l.id ≠ "" → ("id:" ++ l.id) ∉ marked →
      ∃ a ∈ (dedupAndFilter marked markFail logs).1, a.id = l.id) ∧
    (∀ a ∈ (dedupAndFilter marked markFail logs).1,
      logs.find? (fun l => l.id = a.id) = some a) ∧
    ((dedupAndFilter marked markFail logs).2 =
      if (dedupAndFilter marked markFail logs).1.length > 0 then
        marked ++ dedupMarks markFail (dedupAndFilter marked markFail logs).1
      else marked) := by
  refine ⟨dedupLoop_sublist marked logs [], ?_, dedupLoop_ids_nodup marked logs [], ?_, ?_, rfl⟩
  · intro l hl
    have := of_mem_dedupLoop marked logs [] l hl
    exact ⟨this.1, this.2.1⟩
  · intro l hl hid hmk
    exact exists_mem_dedupLoop marked logs [] l hl hid hmk (List.not_mem_nil _)
  · intro a ha
    exact find?_of_mem_dedupLoop marked logs [] a ha

/-- Witness for C6 on a concrete batch: empty-id record dropped, the
marked id `m` dropped, the in-batch duplicate of `x` dropped, and the
first occurrence of `x` accepted in order. -/
theorem dedup_filter_algorithm_witness :
    (dedupAndFilter ["id:m"] (fun _ => false)
        [⟨"", "00"⟩, ⟨"x", "01"⟩, ⟨"m", "02"⟩, ⟨"x", "03"⟩]).1 = [⟨"x", "01"⟩] ∧
    (∃ a ∈ (dedupAndFilter ["id:m"] (fun _ => false)
        [⟨"", "00"⟩, ⟨"x", "01"⟩, ⟨"m", "02"⟩, ⟨"x", "03"⟩]).1, a.id = "x") ∧
    List.find? (fun l => l.id = (⟨"x", "03"⟩ : Log).id)
        [(⟨"", "00"⟩ : Log), ⟨"x", "01"⟩, ⟨"m", "02"⟩, ⟨"x", "03"⟩] = some ⟨"x", "01"⟩ := by
  refine ⟨by decide, ?_, ?_⟩
  · exact (dedup_filter_algorithm ["id:m"] (fun _ => false)
      [⟨"", "00"⟩, ⟨"x", "01"⟩, ⟨"m", "02"⟩, ⟨"x", "03"⟩]).2.2.2.1
      ⟨"x", "03"⟩ (by decide) (by decide) (by decide)
  · exact (dedup_filter_algorithm ["id:m"] (fun _ => false)
      [⟨"", "00"⟩, ⟨"x", "01"⟩, ⟨"m", "02"⟩, ⟨"x", "03"⟩]).2.2.2.2.1
      ⟨"x", "01"⟩ (by decide)

/-! ### Claim C1: the two-phase forward fetch has no gap -/

/-- A record matches phase 1 or phase 2 exactly when its
`(created_at, id)` key is strictly above the cursor. -/
theorem phase_or_iff (c : CursorState) (mp : Nat) (l : Log) :
    (logMatches (phase1Opts c.ts c.id) l || logMatches (phase2Opts c.ts mp) l) = true ↔
      cursorLtLog c l := by
  unfold logMatches phase1Opts phase2Opts tsMatches idMatches cursorLtLog
  simp only [Bool.or_eq_true, Bool.and_eq_true, decide_eq_true_eq, Bool.and_true]
  constructor
  · rintro (⟨hts, hid⟩ | hgt)
    · exact Or.inr ⟨hts.symm, hid⟩
    · exact Or.inl hgt
  · rintro (hgt | ⟨hts, hid⟩)
    · exact Or.inr hgt
    · exact Or.inl ⟨hts.symm, hid⟩

/-- No record matches both phases. -/
theorem phase_disjoint (c : CursorState) (mp : Nat) (l : Log) :
    ¬(logMatches (phase1Opts c.ts c.id) l = true ∧
      logMatches (phase2Opts c.ts mp) l = true) := by
  unfold logMatches phase1Opts phase2Opts tsMatches idMatches
  simp only [Bool.and_eq_true, decide_eq_true_eq, Bool.and_true]
  rintro ⟨⟨hts, -⟩, hgt⟩
  rw [hts, strLt_irrefl] at hgt
  cases hgt

theorem phase_or_eq_decide (c : CursorState) (mp : Nat) (l : Log) :
    (logMatches (phase1Opts c.ts c.id) l || logMatches (phase2Opts c.ts mp) l) =
      decide (cursorLtLog c l) := by
  by_cases hc : cursorLtLog c l
  · rw [decide_eq_true hc, (phase_or_iff c mp l).mpr hc]
  · rw [decide_eq_false hc]
    cases hor : (logMatches (phase1Opts c.ts c.id) l ||
        logMatches (phase2Opts c.ts mp) l) with
    | false => rfl
    | true => exact absurd ((phase_or_iff c mp l).mp hor) hc

/-- Concatenating the filters of two disjoint predicates is a
permutation of the filter of their disjunction. -/
theorem filter_append_perm_of_disjoint {α : Type} (p q : α → Bool) :
    ∀ l : List α, (∀ a ∈ l, ¬(p a = true ∧ q a = true)) →
      List.Perm (l.filter p ++ l.filter q) (l.filter fun a => p a || q a)
  | [], _ => by simp
  | x :: l, h => by
    have ih := filter_append_perm_of_disjoint p q l
      (fun a ha => h a (List.mem_cons_of_mem _ ha))
    by_cases hp : p x = true
    · have hq : q x = false := by
        cases hqx : q x with
        | false => rfl
        | true => exact absurd ⟨hp, hqx⟩ (h x (List.mem_cons_self x l))
      rw [List.filter_cons_of_pos hp, List.filter_cons_of_neg (by rw [hq]; exact Bool.false_ne_true),
        List.filter_cons_of_pos (by rw [hp]; rfl)]
      exact ih.cons x
    · have hp' : p x = false := Bool.eq_false_iff.mpr hp
      by_cases hq : q x = true
      · rw [List.filter_cons_of_neg hp, List.filter_cons_of_pos hq,
          List.filter_cons_of_pos (by rw [hq, Bool.or_true])]
        exact List.perm_middle.trans (ih.cons x)
      · have hq' : q x = false := Bool.eq_false_iff.mpr hq
        rw [List.filter_cons_of_neg hp, List.filter_cons_of_neg hq,
          List.filter_cons_of_neg (by rw [hp', hq']; exact Bool.false_ne_true)]
        exact ih

/-- A sorted list without duplicates is strictly ascending. -/
theorem pairwise_logKeyLt_of_sorted_nodup {l : List Log}
    (hs : l.Pairwise LogAsc) (hn : l.Nodup) : l.Pairwise logKeyLt :=
  (hs.and hn).imp fun h => logKeyLt_of_logAscLe_of_ne h.1 h.2

/-- Every phase-1 record sits at the cursor timestamp. -/
theorem phase1_mem_ts {source : List Log} {perPage : Nat} {ts id : String} {l : Log}
    (h : l ∈ fetchLogs source perPage (phase1Opts ts id)) : l.created_at = ts := by
  have := (mem_of_mem_fetchLogs h).2
  unfold logMatches phase1Opts tsMatches idMatches at this
  simp only [Bool.and_eq_true, decide_eq_true_eq] at this
  exact this.1

/-- Every phase-2 record is strictly newer than the cursor timestamp. -/
theorem phase2_mem_gt {source : List Log} {perPage mp : Nat} {ts : String} {l : Log}
    (h : l ∈ fetchLogs source perPage (phase2Opts ts mp)) :
    strLt ts l.created_at = true := by
  have := (mem_of_mem_fetchLogs h).2
  unfold logMatches phase2Opts tsMatches idMatches at this
  simp only [Bool.and_eq_true, Bool.and_true] at this
  exact this

/-- C1 (amended: provided each phase's matching records fit inside its
page budget, and the source has no duplicate records): the concatenation
of the phase-1 and phase-2 fetches is a permutation of the source
records strictly above the cursor — every such record exactly once — and
it is strictly ascending in `(created_at, id)`. -/
theorem forward_two_phase_no_gap (source : List Log) (c : CursorState)
    (perPage mp : Nat) (hnd : source.Nodup)
    (h1 : (source.filter (logMatches (phase1Opts c.ts c.id))).length ≤ 5 * perPage)
    (h2 : (source.filter (logMatches (phase2Opts c.ts mp))).length ≤ mp * perPage) :
    List.Perm
      (fetchLogs source perPage (phase1Opts c.ts c.id) ++
        fetchLogs source perPage (phase2Opts c.ts mp))
      (source.filter fun l => decide (cursorLtLog c l)) ∧
    (fetchLogs source perPage (phase1Opts c.ts c.id) ++
        fetchLogs source perPage (phase2Opts c.ts mp)).Pairwise logKeyLt := by
  have e1 : fetchLogs source perPage (phase1Opts c.ts c.id) =
      (source.filter (logMatches (phase1Opts c.ts c.id))).insertionSort LogAsc := by
    rw [fetchLogs_of_le_budget source perPage _ h1]
    rfl
  have e2 : fetchLogs source perPage (phase2Opts c.ts mp) =
      (source.filter (logMatches (phase2Opts c.ts mp))).insertionSort LogAsc := by
    rw [fetchLogs_of_le_budget source perPage _ h2]
    rfl
  constructor
  · rw [e1, e2]
    have hperm : List.Perm
        ((source.filter (logMatches (phase1Opts c.ts c.id))).insertionSort LogAsc ++
          (source.filter (logMatches (phase2Opts c.ts mp))).insertionSort LogAsc)
        (source.filter (logMatches (phase1Opts c.ts c.id)) ++
          source.filter (logMatches (phase2Opts c.ts mp))) :=
      (List.perm_insertionSort _ _).append (List.perm_insertionSort _ _)
    refine hperm.trans ?_
    refine (filter_append_perm_of_disjoint _ _ source
      (fun a _ => phase_disjoint c mp a)).trans ?_
    rw [List.filter_congr (fun a _ => phase_or_eq_decide c mp a)]
  · rw [e1, e2, List.pairwise_append]
    refine ⟨?_, ?_, ?_⟩
    · exact pairwise_logKeyLt_of_sorted_nodup
        (List.sorted_insertionSort LogAsc _)
        ((List.perm_insertionSort LogAsc _).nodup_iff.mpr (hnd.filter _))
    · exact pairwise_logKeyLt_of_sorted_nodup
        (List.sorted_insertionSort LogAsc _)
        ((List.perm_insertionSort LogAsc _).nodup_iff.mpr (hnd.filter _))
    · intro a ha b hb
      rw [← e1] at ha
      rw [← e2] at hb
      have hts : a.created_at = c.ts := phase1_mem_ts ha
      have hgt : strLt c.ts b.created_at = true := phase2_mem_gt hb
      exact Or.inl (hts ▸ hgt)

/-- C1 counterexample: with `LOGS_PER_PAGE = 1` and
`FORWARD_MAX_PAGES = 1`, a source holding two records above the cursor
loses the second one to the phase-2 page budget: the claim as stated
(for every static source) fails. -/
theorem forward_two_phase_gap_cex :
    cursorLtLog ⟨"05", ""⟩ ⟨"b", "20"⟩ ∧
    (⟨"b", "20"⟩ : Log) ∈ [(⟨"a", "10"⟩ : Log), ⟨"b", "20"⟩] ∧
    (⟨"b", "20"⟩ : Log) ∉
      (fetchLogs [⟨"a", "10"⟩, ⟨"b", "20"⟩] 1 (phase1Opts "05" "") ++
        fetchLogs [⟨"a", "10"⟩, ⟨"b", "20"⟩] 1 (phase2Opts "05" 1)) := by
  refine ⟨?_, ?_, ?_⟩ <;> decide

/-- Witness for the amended C1 at a concrete source and cursor within
the page budgets. -/
theorem forward_two_phase_no_gap_witness :
    ([(⟨"a", "10"⟩ : Log), ⟨"b", "20"⟩].Nodup ∧
      ([(⟨"a", "10"⟩ : Log), ⟨"b", "20"⟩].filter
        (logMatches (phase1Opts "05" ""))).length ≤ 5 * 50 ∧
      ([(⟨"a", "10"⟩ : Log), ⟨"b", "20"⟩].filter
        (logMatches (phase2Opts "05" 20))).length ≤ 20 * 50) ∧
    List.Perm
      (fetchLogs [⟨"a", "10"⟩, ⟨"b", "20"⟩] 50 (phase1Opts "05" "") ++
        fetchLogs [⟨"a", "10"⟩, ⟨"b", "20"⟩] 50 (phase2Opts "05" 20))
      ([(⟨"a", "10"⟩ : Log), ⟨"b", "20"⟩].filter
        fun l => decide (cursorLtLog ⟨"05", ""⟩ l)) ∧
    (fetchLogs [⟨"a", "10"⟩, ⟨"b", "20"⟩] 50 (phase1Opts "05" "") ++
        fetchLogs [⟨"a", "10"⟩, ⟨"b", "20"⟩] 50 (phase2Opts "05" 20)).Pairwise logKeyLt :=
  ⟨⟨by decide, by decide, by decide⟩,
    (forward_two_phase_no_gap [⟨"a", "10"⟩, ⟨"b", "20"⟩] ⟨"05", ""⟩ 50 20
      (by decide) (by decide) (by decide)).1,
    (forward_two_phase_no_gap [⟨"a", "10"⟩, ⟨"b", "20"⟩] ⟨"05", ""⟩ 50 20
      (by decide) (by decide) (by decide)).2⟩

/-! ### Claim C2: idempotent forward cycle under retry -/

/-- C2 (amended: the prior run aborted during fetch, before any dedup
marking): a fetch-aborted forward cycle leaves the whole durable state
unchanged, so after any number of such aborted attempts the re-run
computes the same post-dedup result set as the first attempt, and the
eventual successful run is identical — in particular it commits the same
terminal cursor no matter how many times the cycle was retried. -/
theorem forward_retry_idempotent (eFail eOk : FwdEnv) (s : KVState) (k : Nat)
    (hf : eFail.fetchOk = false) :
    iterForward eFail k s = s ∧
    forwardToSend eOk (iterForward eFail k s) = forwardToSend eOk s ∧
    runForward eOk (iterForward eFail k s) = runForward eOk s := by
  have hiter : iterForward eFail k s = s := by
    induction k with
    | zero => rfl
    | succ n ih =>
      show iterForward eFail n (runForward eFail s).2 = s
      rw [runForward_fetchFail eFail s hf]
      exact ih
  exact ⟨hiter, by rw [hiter], by rw [hiter]⟩

/-- Witness for the amended C2: three fetch-failed attempts, then the
successful run commits the same result as an immediate successful
run. -/
theorem forward_retry_idempotent_witness :
    iterForward ⟨[⟨"a", "10"⟩], "05", 50, 20, false, ⟨true, []⟩, fun _ => false⟩ 3
        ⟨none, none, none, []⟩ = ⟨none, none, none, []⟩ ∧
    runForward ⟨[⟨"a", "10"⟩], "05", 50, 20, true, ⟨true, []⟩, fun _ => false⟩
        (iterForward ⟨[⟨"a", "10"⟩], "05", 50, 20, false, ⟨true, []⟩, fun _ => false⟩ 3
          ⟨none, none, none, []⟩) =
      runForward ⟨[⟨"a", "10"⟩], "05", 50, 20, true, ⟨true, []⟩, fun _ => false⟩
        ⟨none, none, none, []⟩ :=
  ⟨(forward_retry_idempotent
      ⟨[⟨"a", "10"⟩], "05", 50, 20, false, ⟨true, []⟩, fun _ => false⟩
      ⟨[⟨"a", "10"⟩], "05", 50, 20, true, ⟨true, []⟩, fun _ => false⟩
      ⟨none, none, none, []⟩ 3 (by decide)).1,
    (forward_retry_idempotent
      ⟨[⟨"a", "10"⟩], "05", 50, 20, false, ⟨true, []⟩, fun _ => false⟩
      ⟨[⟨"a", "10"⟩], "05", 50, 20, true, ⟨true, []⟩, fun _ => false⟩
      ⟨none, none, none, []⟩ 3 (by decide)).2.2⟩

/-- Fixtures for the C2 counterexample: a one-record source and a cycle
whose sink write fails. -/
def c2EnvSinkFail : FwdEnv :=
  ⟨[⟨"a", "10"⟩], "05", 50, 20, true, ⟨false, []⟩, fun _ => false⟩

def c2EnvOk : FwdEnv :=
  ⟨[⟨"a", "10"⟩], "05", 50, 20, true, ⟨true, []⟩, fun _ => false⟩

def c2Start : KVState := ⟨none, none, none, []⟩

/-- C2 counterexample: a forward cycle that aborts at the sink write —
before the cursor commit, as the claim allows — already wrote the dedup
markers, so the unchanged-source re-run computes a different (empty)
post-dedup result set, and the retried cycle never commits any cursor at
all instead of reaching the same terminal cursor. -/
theorem forward_retry_idempotent_cex :
    (runForward c2EnvSinkFail c2Start).1 = false ∧
    (runForward c2EnvSinkFail c2Start).2.forward = none ∧
    forwardToSend c2EnvSinkFail c2Start = [⟨"a", "10"⟩] ∧
    forwardToSend c2EnvOk (runForward c2EnvSinkFail c2Start).2 = [] ∧
    (runForward c2EnvOk (runForward c2EnvSinkFail c2Start).2).2.forward = none := by
  refine ⟨?_, ?_, ?_, ?_, ?_⟩ <;> decide

/-! ### Claim C4: backfill termination -/

theorem head_eq_of_eq {α : Type} {l₁ l₂ : List α} (h : l₁ = l₂) (h₁ : l₁ ≠ []) :
    l₁.head h₁ = l₂.head (h ▸ h₁) := by
  cases h
  rfl

theorem length_filter_le_of_imp {α : Type} (p q : α → Bool) :
    ∀ l : List α, (∀ a ∈ l, p a = true → q a = true) →
      (l.filter p).length ≤ (l.filter q).length
  | [], _ => Nat.le_refl 0
  | x :: l, h => by
    have ih := length_filter_le_of_imp p q l
      (fun a ha => h a (List.mem_cons_of_mem _ ha))
    by_cases hp : p x = true
    · rw [List.filter_cons_of_pos hp,
        List.filter_cons_of_pos (h x (List.mem_cons_self x l) hp)]
      simp only [List.length_cons]
      exact Nat.succ_le_succ ih
    · rw [List.filter_cons_of_neg hp]
      by_cases hq : q x = true
      · rw [List.filter_cons_of_pos hq]
        simp only [List.length_cons]
        exact Nat.le_succ_of_le ih
      · rw [List.filter_cons_of_neg hq]
        exact ih

theorem length_filter_lt_of_witness {α : Type} (p q : α → Bool) :
    ∀ (l : List α) (x : α), x ∈ l → q x = true → p x = false →
      (∀ a ∈ l, p a = true → q a = true) →
      (l.filter p).length < (l.filter q).length
  | [], x, hx, _, _, _ => absurd hx (List.not_mem_nil x)
  | a :: l, x, hx, hqx, hpx, h => by
    have himp := fun b hb => h b (List.mem_cons_of_mem _ hb)
    rcases List.mem_cons.mp hx with rfl | hx
    · rw [List.filter_cons_of_neg (by rw [hpx]; exact Bool.false_ne_true),
        List.filter_cons_of_pos hqx]
      simp only [List.length_cons]
      exact Nat.lt_succ_of_le (length_filter_le_of_imp p q l himp)
    · by_cases hpa : p a = true
      · rw [List.filter_cons_of_pos hpa,
          List.filter_cons_of_pos (h a (List.mem_cons_self a l) hpa)]
        simp only [List.length_cons]
        exact Nat.succ_lt_succ (length_filter_lt_of_witness p q l x hx hqx hpx himp)
      · rw [List.filter_cons_of_neg hpa]
        by_cases hqa : q a = true
        · rw [List.filter_cons_of_pos hqa]
          exact Nat.lt_succ_of_lt (length_filter_lt_of_witness p q l x hx hqx hpx himp)
        · rw [List.filter_cons_of_neg hqa]
          exact length_filter_lt_of_witness p q l x hx hqx hpx himp

/-- Every record of the sorted backfill batch comes from the source and
is strictly older than the oldest marker. -/
theorem backfillSorted_mem (e : BkEnv) (t : String) {l : Log}
    (hl : l ∈ backfillSorted e t) :
    l ∈ e.source ∧ strLt l.created_at t = true := by
  have h2 : l ∈ backfillBatch e t := (List.mem_insertionSort _).mp hl
  have h3 := mem_of_mem_fetchLogs
    (show l ∈ fetchLogs e.source e.perPage (backfillOpts t e.backfillMaxPages) from h2)
  refine ⟨h3.1, ?_⟩
  have h4 := h3.2
  unfold logMatches backfillOpts tsMatches idMatches at h4
  simp only [Bool.and_eq_true, Bool.and_true] at h4
  exact h4

theorem backfillToSend_mem (e : BkEnv) (s : KVState) (t : String) {l : Log}
    (hl : l ∈ backfillToSend e s t) :
    l ∈ e.source ∧ strLt l.created_at t = true :=
  backfillSorted_mem e t
    ((dedupLoop_sublist s.marked (backfillSorted e t) []).subset hl)

/-- The sorted backfill batch carries pairwise-distinct ids when the
source does. -/
theorem backfillSorted_ids_nodup (e : BkEnv) (t : String)
    (hids : (e.source.map Log.id).Nodup) :
    ((backfillSorted e t).map Log.id).Nodup := by
  have hperm : List.Perm ((backfillSorted e t).map Log.id)
      ((backfillBatch e t).map Log.id) :=
    (List.perm_insertionSort LogAsc (backfillBatch e t)).map Log.id
  rw [hperm.nodup_iff]
  have hsubB : List.Sublist (backfillBatch e t)
      (sortLogs (e.source.filter (logMatches (backfillOpts t e.backfillMaxPages))) false) := by
    unfold backfillBatch fetchLogs
    rw [fetchPagesFrom_eq_take]
    exact List.take_sublist _ _
  refine (hsubB.map Log.id).nodup ?_
  have hp : List.Perm
      ((sortLogs (e.source.filter (logMatches (backfillOpts t e.backfillMaxPages))) false).map Log.id)
      ((e.source.filter (logMatches (backfillOpts t e.backfillMaxPages))).map Log.id) :=
    (sortLogs_perm _ _).map Log.id
  rw [hp.nodup_iff]
  exact ((List.filter_sublist e.source).map Log.id).nodup hids

/-- In an ascending-sorted batch the head's timestamp bounds every
member's timestamp from below. -/
theorem head_le_of_sorted {l : List Log} (hs : l.Pairwise LogAsc) (hne : l ≠ [])
    {a : Log} (ha : a ∈ l) :
    strLe ((l.head hne).created_at) a.created_at = true := by
  cases l with
  | nil => exact absurd rfl hne
  | cons x xs =>
    rcases List.mem_cons.mp ha with rfl | ha
    · exact strLe_refl _
    · have hx := (List.pairwise_cons.mp hs).1 a ha
      rw [LogAsc, logAscLe_eq_true_iff] at hx
      unfold logLe at hx
      rcases hx with h | ⟨h, -⟩
      · exact strLe_of_lt h
      · rw [List.head_cons, h]
        exact strLe_refl _

/-- The number of source records strictly below the oldest marker: the
termination measure of backfill. -/
def bkMeasure (e : BkEnv) (s : KVState) : Nat :=
  match s.oldest with
  | none => 0
  | some t => (e.source.filter fun l => strLt l.created_at t).length

/-- One backfill cycle under reliable fetch and sink, with distinct
nonempty record ids and timestamps and no stale marker below the current
oldest value, either deletes the marker or strictly decreases the
measure while preserving those properties. -/
theorem backfill_progress (e : BkEnv) (s : KVState) (t : String)
    (hfetch : e.fetchOk = true) (hsink : e.sink.ok = true)
    (hids : (e.source.map Log.id).Nodup)
    (hid : ∀ l ∈ e.source, l.id ≠ "")
    (hts : ∀ l ∈ e.source, l.created_at ≠ "")
    (ht : s.oldest = some t) (hne : t ≠ "")
    (hfresh : ∀ l ∈ e.source, strLt l.created_at t = true → ("id:" ++ l.id) ∉ s.marked) :
    (runBackfill e s).2.oldest = none ∨
    (∃ t' : String, (runBackfill e s).2.oldest = some t' ∧ t' ≠ "" ∧
      strLt t' t = true ∧
      (∀ l ∈ e.source, strLt l.created_at t' = true →
        ("id:" ++ l.id) ∉ (runBackfill e s).2.marked) ∧
      bkMeasure e (runBackfill e s).2 < bkMeasure e s) := by
  by_cases hb : backfillBatch e t = []
  · left
    rw [runBackfill_emptyFetch e s t ht hne hfetch hb]
  · have hBall : ∀ l ∈ backfillSorted e t,
        l.id ≠ "" ∧ ("id:" ++ l.id) ∉ s.marked ∧ l.id ∉ ([] : List String) := by
      intro l hl
      have hm := backfillSorted_mem e t hl
      exact ⟨hid l hm.1, hfresh l hm.1 hm.2, List.not_mem_nil _⟩
    have htosend : backfillToSend e s t = backfillSorted e t :=
      dedupLoop_eq_self s.marked (backfillSorted e t) [] hBall
        (backfillSorted_ids_nodup e t hids)
    have hBne : backfillSorted e t ≠ [] := by
      intro hh
      apply hb
      have hp := List.perm_insertionSort LogAsc (backfillBatch e t)
      rw [show (backfillBatch e t).insertionSort LogAsc = backfillSorted e t from rfl,
        hh] at hp
      exact hp.symm.eq_nil
    have hd : backfillToSend e s t ≠ [] := by rw [htosend]; exact hBne
    have hheads : (backfillToSend e s t).head hd = (backfillSorted e t).head hBne := by
      rw [head_eq_of_eq htosend hd]
    have hmemhead := backfillToSend_mem e s t (List.head_mem hd)
    have hheadlt : strLt ((backfillToSend e s t).head hd).created_at t = true :=
      hmemhead.2
    rw [runBackfill_advance e s t ht hne hfetch hb hd hsink]
    by_cases hstop :
        strLe ((backfillToSend e s t).head hd).created_at (backfillStopOf s) = true
    · left
      simp only [if_pos hstop]
    · right
      refine ⟨((backfillToSend e s t).head hd).created_at, ?_, hts _ hmemhead.1,
        hheadlt, ?_, ?_⟩
      · simp only [if_neg (fun hh => hstop hh)]
      · -- freshness below the new marker
        intro l hls hlt hmem
        simp only [if_neg (fun hh => hstop hh)] at hmem
        have hmarked : (backfillDedup e s t).2 =
            s.marked ++ dedupMarks e.markFail (backfillToSend e s t) := by
          show (if (dedupLoop s.marked (backfillSorted e t) []).length > 0 then
              s.marked ++ dedupMarks e.markFail (dedupLoop s.marked (backfillSorted e t) [])
            else s.marked) = _
          rw [if_pos (List.length_pos.mpr
            (show dedupLoop s.marked (backfillSorted e t) [] ≠ [] from hd))]
          rfl
        rw [hmarked] at hmem
        rcases List.mem_append.mp hmem with hmem | hmem
        · exact hfresh l hls (strLt_trans hlt hheadlt) hmem
        · rcases mem_dedupMarks.mp hmem with ⟨a, haS, -, hkey⟩
          have haid : l.id = a.id := idKey_inj hkey
          have haeq : a = l :=
            List.inj_on_of_nodup_map hids (backfillToSend_mem e s t haS).1 hls haid.symm
          subst haeq
          have hlB : a ∈ backfillSorted e t := htosend ▸ haS
          have hlehead : strLe ((backfillSorted e t).head hBne).created_at a.created_at = true :=
            head_le_of_sorted (l := backfillSorted e t)
              (List.sorted_insertionSort LogAsc (backfillBatch e t)) hBne hlB
          rw [← hheads] at hlehead
          have := strLt_of_lt_of_le hlt hlehead
          rw [strLt_irrefl] at this
          cases this
      · -- the measure strictly decreases
        have hnewm : bkMeasure e
            (⟨s.forward,
              some ((backfillToSend e s t).head hd).created_at,
              s.backfill_stop_at, (backfillDedup e s t).2⟩ : KVState) =
            (e.source.filter fun l =>
              strLt l.created_at ((backfillToSend e s t).head hd).created_at).length := rfl
        simp only [if_neg (fun hh => hstop hh)]
        show (e.source.filter fun l =>
            strLt l.created_at ((backfillToSend e s t).head hd).created_at).length <
          bkMeasure e s
        have holdm : bkMeasure e s = (e.source.filter fun l => strLt l.created_at t).length := by
          unfold bkMeasure
          rw [ht]
        rw [holdm]
        exact length_filter_lt_of_witness _ _ e.source
          ((backfillToSend e s t).head hd) hmemhead.1 hheadlt
          (strLt_irrefl _)
          (fun a _ hpa => strLt_trans hpa hheadlt)

/-- Iterating backfill from a fresh state of measure at most `k`
eventually deletes the marker. -/
theorem backfill_terminates_aux (e : BkEnv)
    (hfetch : e.fetchOk = true) (hsink : e.sink.ok = true)
    (hids : (e.source.map Log.id).Nodup)
    (hid : ∀ l ∈ e.source, l.id ≠ "")
    (hts : ∀ l ∈ e.source, l.created_at ≠ "") :
    ∀ (k : Nat) (s : KVState) (t : String), s.oldest = some t → t ≠ "" →
      (∀ l ∈ e.source, strLt l.created_at t = true → ("id:" ++ l.id) ∉ s.marked) →
      bkMeasure e s ≤ k →
      ∃ n, (iterBackfill e n s).oldest = none := by
  intro k
  induction k with
  | zero =>
    intro s t ht hne hfresh hk
    rcases backfill_progress e s t hfetch hsink hids hid hts ht hne hfresh with
      hdone | ⟨t', _, _, _, _, hlt⟩
    · exact ⟨1, hdone⟩
    · omega
  | succ k ih =>
    intro s t ht hne hfresh hk
    rcases backfill_progress e s t hfetch hsink hids hid hts ht hne hfresh with
      hdone | ⟨t', ht', hne', _, hfresh', hlt⟩
    · exact ⟨1, hdone⟩
    · rcases ih (runBackfill e s).2 t' ht' hne' hfresh' (by omega) with ⟨n, hn⟩
      exact ⟨n + 1, hn⟩

/-- C4 (amended: provided the sink and the marker writes are reliable
throughout, the source has pairwise-distinct nonempty ids and nonempty
timestamps, and no record below the initial marker already carries a
dedup marker): iterated backfill reaches, within finitely many cycles, a
cycle that deletes the oldest marker — either through an empty fetch or
through the stop boundary — and from then on every backfill cycle is a
no-op.  Without the freshness proviso this fails: a batch wholly
swallowed by dedup leaves the marker in place forever (see the
counterexample). -/
theorem backfill_terminates (e : BkEnv) (s : KVState) (t : String)
    (hfetch : e.fetchOk = true) (hsink : e.sink.ok = true)
    (hids : (e.source.map Log.id).Nodup)
    (hid : ∀ l ∈ e.source, l.id ≠ "")
    (hts : ∀ l ∈ e.source, l.created_at ≠ "")
    (ht : s.oldest = some t) (hne : t ≠ "")
    (hfresh : ∀ l ∈ e.source, strLt l.created_at t = true → ("id:" ++ l.id) ∉ s.marked) :
    ∃ n, (iterBackfill e n s).oldest = none ∧
      ∀ m, iterBackfill e m (iterBackfill e n s) = iterBackfill e n s := by
  rcases backfill_terminates_aux e hfetch hsink hids hid hts (bkMeasure e s) s t
    ht hne hfresh (Nat.le_refl _) with ⟨n, hn⟩
  exact ⟨n, hn, fun m => iterBackfill_noMarker e _ hn m⟩

/-- Fixtures for the C4 counterexample: a single old record; the first
backfill cycle writes its dedup marker but the sink write fails. -/
def c4EnvSinkFail : BkEnv := ⟨[⟨"a", "05"⟩], 50, 40, true, ⟨false, []⟩, fun _ => false⟩

def c4EnvOk : BkEnv := ⟨[⟨"a", "05"⟩], 50, 40, true, ⟨true, []⟩, fun _ => false⟩

/-- The state after the sink-failed cycle: record `a` is marked but was
never delivered, and the oldest marker is unchanged. -/
def c4Wedged : KVState := (runBackfill c4EnvSinkFail ⟨none, some "10", none, []⟩).2

/-- C4 counterexample: after one sink-failed cycle the record is marked,
so every subsequent (fully functional) backfill cycle fetches a nonempty
batch, dedups it to nothing, and returns the state unchanged — a
fixpoint.  No iteration ever reaches an empty fetch or deletes the
oldest marker, contradicting the claim over this finite static
source. -/
theorem backfill_wedged_cex :
    (runBackfill c4EnvSinkFail ⟨none, some "10", none, []⟩).1 = false ∧
    c4Wedged.oldest = some "10" ∧
    c4Wedged.marked = ["id:a"] ∧
    backfillBatch c4EnvOk "10" ≠ [] ∧
    runBackfill c4EnvOk c4Wedged = (true, c4Wedged) := by
  refine ⟨?_, ?_, ?_, ?_, ?_⟩ <;> decide

/-- Witness for the amended C4 at a concrete one-record source. -/
theorem backfill_terminates_witness :
    ∃ n, (iterBackfill c4EnvOk n ⟨none, some "10", none, []⟩).oldest = none ∧
      ∀ m, iterBackfill c4EnvOk m (iterBackfill c4EnvOk n ⟨none, some "10", none, []⟩) =
        iterBackfill c4EnvOk n ⟨none, some "10", none, []⟩ :=
  backfill_terminates c4EnvOk ⟨none, some "10", none, []⟩ "10" rfl rfl
    (by decide) (by decide) (by decide) rfl (by decide) (by decide)

end AigPoller
